import Mathlib

/-!
# MLQL core compiler: a shallow embedding and verification

This file embeds the core data model and algorithms of the MLQL query
compiler (crates `mlql-ir`, `mlql-duck`, `mlql-ast`) and settles the spec
claims C1-C10 against them.

Embedding conventions:
* Rust `HashMap<String, V>` values are modelled as association lists
  `List (String × V)` carrying the entries in the map's iteration order.
  Iteration order of Rust's std `HashMap` is not a function of the entries
  (each map instance has its own random hash state), so two structurally
  identical maps may iterate in different orders; theorems about
  order sensitivity quantify over (or exhibit) distinct entry orders.
* Rust `u32` / `usize` / `i64` are modelled as `Nat` / `Nat` / `Int`; no
  arithmetic in the modelled code can overflow (anchors and indices only
  ever grow by 1 per registered function or column).
* `f64` values are modelled opaquely by their decimal rendering
  (`F64.repr`); no claim computes with floating point.
* Fallible Rust functions returning `Result<T, E>` become
  `Except E T`-valued functions; `?` becomes an explicit `match`.
* The per-translation `RefCell<FunctionRegistry>` interior mutability is
  modelled by threading the registry value through each translator
  function (state passing).
-/

set_option maxRecDepth 20000

namespace MLQL

/-- Single apostrophe character, used to build error-message strings. -/
def sq : String := String.singleton (Char.ofNat 39)

/-- Opaque model of an IEEE-754 `f64`: the value is identified with its
decimal rendering (as produced by serde_json / `Display`). No claim in this
development computes with floats. -/
structure F64 where
  repr : String
deriving DecidableEq

/-! ## IR data model (crates/mlql-ir/src/lib.rs) -/

/-- `ColumnRef { table: Option<String>, column: String }`. -/
structure ColumnRef where
  table : Option String
  column : String
deriving DecidableEq

/-- `enum BinOp` from mlql-ir. -/
inductive BinOp
  | Add | Sub | Mul | Div | Mod
  | Eq | Ne | Lt | Le | Gt | Ge
  | And | Or
  | Like | ILike
deriving DecidableEq

/-- `enum UnOp` from mlql-ir. -/
inductive UnOp
  | Neg
  | Not
deriving DecidableEq

/-- `enum Value` from mlql-ir. `Object` carries its `HashMap` entries in
iteration order. -/
inductive Value
  | Null
  | Bool (b : Bool)
  | Int (i : Int)
  | Float (f : F64)
  | String (s : String)
  | Bytes (bs : List Nat)
  | Date (s : String)
  | Time (s : String)
  | Timestamp (s : String)
  | Array (xs : List Value)
  | Object (fields : List (String × Value))

/-- `enum Expr` from mlql-ir. `Object` carries its `HashMap` entries in
iteration order. -/
inductive Expr
  | Literal (value : Value)
  | Column (col : ColumnRef)
  | BinaryOp (op : BinOp) (left : Expr) (right : Expr)
  | UnaryOp (op : UnOp) (expr : Expr)
  | FuncCall (func : String) (args : List Expr)
  | FieldAccess (expr : Expr) (field : String)
  | Index (expr : Expr) (index : Expr)
  | Array (elements : List Expr)
  | Object (fields : List (String × Expr))
  | Vector (values : List F64)
  | InRange (expr : Expr) (start : Expr) (stop : Expr) (inclusive : Bool)
  | InSet (expr : Expr) (set : List Expr)

/-- `enum Projection` (untagged): a bare expression or `Aliased{expr, alias}`. -/
inductive Projection
  | Expr (e : Expr)
  | Aliased (expr : Expr) (aliasName : String)

/-- `struct SortKey { expr, desc }`. -/
structure SortKey where
  expr : Expr
  desc : Bool

/-- `struct AggCall { func, args }`. -/
structure AggCall where
  func : String
  args : List Expr

/-- `enum JoinType` from mlql-ir. -/
inductive JoinType
  | Inner | Left | Right | Full | Semi | Anti | Cross
deriving DecidableEq

/-- `enum ExplainMode`. -/
inductive ExplainMode
  | Logical | Physical | Cost
deriving DecidableEq

/-- `enum FrameMode`. -/
inductive FrameMode
  | Rows | Range
deriving DecidableEq

/-- `enum FrameBound`. -/
inductive FrameBound
  | UnboundedPreceding
  | UnboundedFollowing
  | CurrentRow
  | Preceding (n : Int)
  | Following (n : Int)
deriving DecidableEq

/-- `struct FrameSpec { mode, start, end }`. -/
structure FrameSpec where
  mode : FrameMode
  start : FrameBound
  stop : FrameBound
deriving DecidableEq

/-- `enum GroupKey` (time-window grouping, reserved). -/
inductive GroupKey
  | Tumbling (expr : Expr) (interval : String)
  | Hopping (expr : Expr) (size : String) (slide : String)
  | Session (expr : Expr) (gap : String)

/-- `struct WindowDef { func, args, partition, order, frame }`. -/
structure WindowDef where
  func : String
  args : List Expr
  partition : Option (List ColumnRef)
  order : Option (List SortKey)
  frame : Option FrameSpec

mutual

/-- `enum Source`: `Table`, `Graph` (reserved) or `SubPipeline`. -/
inductive Source
  | Table (name : String) (aliasName : Option String)
  | Graph (graphName : String) (aliasName : String)
  | SubPipeline (pipeline : Pipeline) (aliasName : Option String)

/-- `enum Operator` from mlql-ir, all 20 variants. Maps (`aggs`, `windows`,
`mappings`) carry their `HashMap` entries in iteration order. -/
inductive Operator
  | Select (projections : List Projection)
  | Filter (condition : Expr)
  | Join (source : Source) (onCond : Expr) (joinType : Option JoinType)
  | GroupBy (keys : List ColumnRef) (aggs : List (String × AggCall))
  | Window (windows : List (String × WindowDef))
  | Sort (keys : List SortKey)
  | Take (limit : Int)
  | Distinct
  | Union (all : Bool)
  | Except
  | Intersect
  | Map (mappings : List (String × Expr))
  | Expand (expr : Expr) (aliasName : Option String)
  | Resample (interval : String) (method : String) (onCol : ColumnRef)
  | Agg (groupKey : GroupKey) (aggs : List (String × AggCall))
  | Knn (query : Expr) (k : Int) (index : Option String) (metric : Option String)
  | Rank (by_ : Expr)
  | Neighbors (start : Expr) (depth : Int) (edge : Option String)
  | TopK (k : Int) (by_ : Expr)
  | Sample (fraction : F64) (seed : Option Int)
  | Assert (condition : Expr) (message : Option String)
  | Explain (mode : ExplainMode)

/-- `struct Pipeline { source, ops }`. -/
inductive Pipeline
  | mk (source : Source) (ops : List Operator)

end

/-- The source of a pipeline. -/
def Pipeline.source : Pipeline → Source
  | .mk s _ => s

/-- The operator list of a pipeline. -/
def Pipeline.ops : Pipeline → List Operator
  | .mk _ o => o

/-- `struct LetBinding { name, pipeline }`. -/
structure LetBinding where
  name : String
  pipeline : Pipeline

/-- `struct Pragma { options: HashMap<String, Value> }`, entries in
iteration order. -/
structure Pragma where
  options : List (String × Value)

/-- `struct Program { pragma, lets, pipeline }`. -/
structure Program where
  pragma : Option Pragma
  lets : List LetBinding
  pipeline : Pipeline

/-! ## Schema provider (crates/mlql-ir/src/substrait/schema.rs) -/

/-- `struct ColumnInfo { name, data_type, nullable }`. -/
structure ColumnInfo where
  name : String
  dataType : String
  nullable : Bool
deriving DecidableEq

/-- `struct TableSchema { name, columns }`. -/
structure TableSchema where
  name : String
  columns : List ColumnInfo
deriving DecidableEq

/-- The `SchemaProvider` trait: `get_table_schema(name) -> Result<TableSchema, String>`.
A provider is modelled extensionally as that lookup function. -/
def SchemaProvider : Type := String → Except String TableSchema

/-! ## Substrait plan model

A structural model of the protobuf messages that
`crates/mlql-ir/src/substrait/translator.rs` constructs.  Message fields
that the translator always sets to the same constant (e.g.
`type_variation_reference: 0`, `StructItem.child: None`,
`maintain_singular_struct: true`, `Measure.filter: None`,
`AggregateFunction.{sorts, invocation, phase, options, args}`) are noted in
comments rather than carried as fields. -/

/-- `substrait::proto::r#type::Kind` restricted to the kinds `map_type`
emits; each carries the `nullability` enum value
(`UNSPECIFIED = 0`, `NULLABLE = 1`, `REQUIRED = 2`). -/
inductive SKind
  | I32 (nullability : Int)
  | I64 (nullability : Int)
  | String (nullability : Int)
  | Fp64 (nullability : Int)
  | Fp32 (nullability : Int)
deriving DecidableEq

/-- `FieldReference.root_type`: absent (`None`) or
`Some(RootType::RootReference(RootReference {}))`. -/
inductive RootType
  | NoRoot
  | RootRef
deriving DecidableEq

/-- A `FieldReference` whose `reference_type` is
`DirectReference(ReferenceSegment(StructField { field, child: None }))`
(the only shape the translator builds). -/
structure FieldRef where
  field : Nat
  rootType : RootType
deriving DecidableEq

/-- `expression::literal::LiteralType`, the variants `translate_literal` emits. -/
inductive LiteralType
  | Null
  | Boolean (b : Bool)
  | I64 (v : Int)
  | Fp64 (f : F64)
  | String (s : String)
deriving DecidableEq

/-- `expression::Literal { nullable, type_variation_reference: 0, literal_type }`. -/
structure SLiteral where
  nullable : Bool
  literalType : LiteralType
deriving DecidableEq

/-- `substrait::proto::Expression` (the `rex_type` oneof), restricted to the
variants the translator emits.  `ScalarFunction` arguments are
`FunctionArgument { arg_type: Some(Value(e)) }` wrappers, modelled directly
as the expressions; its `output_type` is always `None` and `options`/
deprecated `args` always empty. -/
inductive SExpression
  | Selection (f : FieldRef)
  | Literal (l : SLiteral)
  | ScalarFunction (functionReference : Nat) (arguments : List SExpression)

/-- `substrait::proto::AggregateFunction`: `function_reference`, argument
expressions (each wrapped in `FunctionArgument::Value` in the proto), and
the `output_type` kind.  `sorts`/`options`/deprecated `args` are always
empty, `invocation` and `phase` always 0. -/
structure AggregateFunction where
  functionReference : Nat
  arguments : List SExpression
  outputType : Option SKind

/-- `aggregate_rel::Measure { measure, filter: None }`. -/
structure Measure where
  measure : AggregateFunction

/-- `aggregate_rel::Grouping`: the deprecated inner `grouping_expressions`
field plus the newer `expression_references` list. -/
structure Grouping where
  groupingExpressions : List SExpression
  expressionReferences : List Nat

/-- `substrait::proto::Rel` (the `rel_type` oneof), the relations the
translator emits.

* `Read` models `ReadRel { base_schema: NamedStruct { names, struct:
  Struct { types, type_variation_reference: 0, nullability } }, projection,
  read_type: NamedTable { names: [tableName] } }`; `projection` is the
  optional `MaskExpression { select: StructSelect { struct_items:
  [StructItem { field: i, child: None }] }, maintain_singular_struct: true }`,
  modelled as the list of its struct-item field indices.
* `Sort` carries `(expr, direction)` pairs modelling
  `SortField { expr, sort_kind: Direction(d) }`.
* `Fetch` carries the deprecated `offset_mode: Offset(o)` and
  `count_mode: Count(c)` scalar variants.
* `Aggregate` carries `groupings`, `measures` and the relation-level
  `grouping_expressions` field.
* `Join` carries `(left, right, expression, join type enum value)`. -/
inductive Rel
  | Read (tableName : String) (baseNames : List String) (baseTypes : List SKind)
      (structNullability : Int) (projection : Option (List Nat))
  | Filter (input : Rel) (condition : SExpression)
  | Project (input : Rel) (expressions : List SExpression)
  | Sort (input : Rel) (sorts : List (SExpression × Int))
  | Fetch (input : Rel) (offsetDeprecated : Int) (countDeprecated : Int)
  | Aggregate (input : Rel) (groupings : List Grouping) (measures : List Measure)
      (groupingExpressions : List SExpression)
  | Join (left : Rel) (right : Rel) (expression : SExpression) (joinTypeCode : Int)

/-- `extensions::SimpleExtensionUri { extension_uri_anchor, uri }`. -/
structure SimpleExtensionUri where
  extensionUriAnchor : Nat
  uri : String
deriving DecidableEq

/-- `extensions::simple_extension_declaration::ExtensionFunction`
(`extension_urn_reference` is always 0). -/
structure ExtensionFunction where
  extensionUriReference : Nat
  functionAnchor : Nat
  name : String
deriving DecidableEq

/-- `PlanRel { rel_type: Root(RelRoot { input, names }) }`. -/
structure PlanRelRoot where
  input : Rel
  names : List String

/-- `substrait::proto::Plan`: version (minor number; patch and the rest
default), extension URIs, extension declarations and relations. -/
structure Plan where
  versionMinor : Nat
  extensionUris : List SimpleExtensionUri
  extensions : List ExtensionFunction
  relations : List PlanRelRoot

/-! ## Function registry (translator.rs lines 21-56) -/

/-- `struct FunctionRegistry { functions: HashMap<String, u32>, next_anchor }`.
The map is carried as an association list in insertion order (`register`
inserts fresh signatures; anchors are handed out monotonically, so the
insertion order is also ascending-anchor order; `get_functions` sorts by
anchor, making its output independent of the map's iteration order). -/
structure FunctionRegistry where
  functions : List (String × Nat)
  nextAnchor : Nat
deriving DecidableEq

/-- `FunctionRegistry::new()`: empty map, `next_anchor = 1` (0 is reserved). -/
def FunctionRegistry.new : FunctionRegistry :=
  { functions := [], nextAnchor := 1 }

/-- `HashMap::get` on the modelled map. -/
def lookupFn (s : String) : List (String × Nat) → Option Nat
  | [] => none
  | (k, v) :: rest => if k == s then some v else lookupFn s rest

/-- `FunctionRegistry::register`: return the existing anchor, or assign
`next_anchor` to a fresh signature and bump it. -/
def FunctionRegistry.register (r : FunctionRegistry) (functionName : String) :
    Nat × FunctionRegistry :=
  match lookupFn functionName r.functions with
  | some anchor => (anchor, r)
  | none =>
    (r.nextAnchor,
     { functions := r.functions ++ [(functionName, r.nextAnchor)],
       nextAnchor := r.nextAnchor + 1 })

/-- Insertion step for `sort_by_key(|(_, anchor)| *anchor)`. -/
def insertByAnchor (x : String × Nat) : List (String × Nat) → List (String × Nat)
  | [] => [x]
  | y :: ys => if x.2 ≤ y.2 then x :: y :: ys else y :: insertByAnchor x ys

/-- Sort a (name, anchor) list by anchor (models `sort_by_key`). -/
def sortByAnchor : List (String × Nat) → List (String × Nat)
  | [] => []
  | x :: xs => insertByAnchor x (sortByAnchor xs)

/-- `FunctionRegistry::get_functions`: all entries sorted by anchor. -/
def FunctionRegistry.getFunctions (r : FunctionRegistry) : List (String × Nat) :=
  sortByAnchor r.functions

/-! ## Translator (translator.rs lines 9-1103)

Every function below mirrors one method of `SubstraitTranslator`; the
`RefCell<FunctionRegistry>` is threaded explicitly.  The dead method
`translate_source` (never called; `translate_source_with_projection` is
used everywhere) is not embedded. -/

/-- `enum TranslateError`. -/
inductive TranslateError
  | Schema (msg : String)
  | UnsupportedOperator (msg : String)
  | Translation (msg : String)
deriving DecidableEq

/-- `Iterator::position`: index of the first element satisfying `p`. -/
def position (p : α → Bool) : List α → Option Nat
  | [] => none
  | a :: as => if p a then some 0 else (position p as).map (· + 1)

/-- Rust `Debug` rendering of a `Vec<String>` (used in the
`Available columns: {:?}` message): `["a", "b"]`. -/
def debugStrList (l : List String) : String :=
  "[" ++ String.intercalate ", " (l.map (fun s => "\"" ++ s ++ "\"")) ++ "]"

/-- Abbreviated `{:?}` rendering of an operator, used only inside
`UnsupportedOperator` message strings (no theorem depends on the text). -/
def reprOperator : Operator → String
  | .Select _ => "Select"
  | .Filter _ => "Filter"
  | .Join _ _ _ => "Join"
  | .GroupBy _ _ => "GroupBy"
  | .Window _ => "Window"
  | .Sort _ => "Sort"
  | .Take _ => "Take"
  | .Distinct => "Distinct"
  | .Union _ => "Union"
  | .Except => "Except"
  | .Intersect => "Intersect"
  | .Map _ => "Map"
  | .Expand _ _ => "Expand"
  | .Resample _ _ _ => "Resample"
  | .Agg _ _ => "Agg"
  | .Knn _ _ _ _ => "Knn"
  | .Rank _ => "Rank"
  | .Neighbors _ _ _ => "Neighbors"
  | .TopK _ _ => "TopK"
  | .Sample _ _ => "Sample"
  | .Assert _ _ => "Assert"
  | .Explain _ => "Explain"

/-- Abbreviated `{:?}` rendering of a binary operator. -/
def reprBinOp : BinOp → String
  | .Add => "Add" | .Sub => "Sub" | .Mul => "Mul" | .Div => "Div" | .Mod => "Mod"
  | .Eq => "Eq" | .Ne => "Ne" | .Lt => "Lt" | .Le => "Le" | .Gt => "Gt" | .Ge => "Ge"
  | .And => "And" | .Or => "Or" | .Like => "Like" | .ILike => "ILike"

/-- `SubstraitTranslator::get_output_names` (lines 252-263): the column
names of a `Table` source, from the schema provider. -/
def getOutputNames (sp : SchemaProvider) : Source → Except TranslateError (List String)
  | .Table name _ =>
    match sp name with
    | .error e => .error (.Schema e)
    | .ok schema => .ok (schema.columns.map (·.name))
  | _ => .error (.UnsupportedOperator "Only Table sources supported currently")

/-- The per-projection name computed by `get_pipeline_output_names` for
`Select` (lines 275-287): column name for a bare column reference, the
alias for `Aliased`, `expr_<idx>` otherwise. -/
def projectionName (idx : Nat) : Projection → String
  | .Expr (.Column col) => col.column
  | .Aliased _ aliasName => aliasName
  | .Expr _ => "expr_" ++ toString idx

/-- Enumerate projections from index `idx` (models `iter().enumerate()`). -/
def selectNamesAux (idx : Nat) : List Projection → List String
  | [] => []
  | p :: ps => projectionName idx p :: selectNamesAux (idx + 1) ps

/-- Output names of a `Select` operator. -/
def selectNames (ps : List Projection) : List String :=
  selectNamesAux 0 ps

/-- One step of the schema trace in `get_pipeline_output_names`
(lines 270-319). -/
def schemaStep (sp : SchemaProvider) (op : Operator) (currentSchema : List String) :
    Except TranslateError (List String) :=
  match op with
  | .Select projections => .ok (selectNames projections)
  | .GroupBy keys aggs =>
    .ok (keys.map (·.column) ++ aggs.map (·.1))
  | .Join source _ _ =>
    match getOutputNames sp source with
    | .error e => .error e
    | .ok rightSchema => .ok (currentSchema ++ rightSchema)
  | .Filter _ => .ok currentSchema
  | .Sort _ => .ok currentSchema
  | .Take _ => .ok currentSchema
  | .Distinct => .ok currentSchema
  | other =>
    .error (.UnsupportedOperator
      ("Output schema calculation not implemented for operator: " ++ reprOperator other))

/-- The operator fold inside `get_pipeline_output_names`. -/
def pipelineOutputNamesAux (sp : SchemaProvider) :
    List Operator → List String → Except TranslateError (List String)
  | [], currentSchema => .ok currentSchema
  | op :: ops, currentSchema =>
    match schemaStep sp op currentSchema with
    | .error e => .error e
    | .ok next => pipelineOutputNamesAux sp ops next

/-- `SubstraitTranslator::get_pipeline_output_names` (lines 266-323). -/
def getPipelineOutputNames (sp : SchemaProvider) (pipeline : Pipeline) :
    Except TranslateError (List String) :=
  match getOutputNames sp pipeline.source with
  | .error e => .error e
  | .ok initial => pipelineOutputNamesAux sp pipeline.ops initial

/-- `if !needed_indices.contains(&idx) { needed_indices.push(idx) }`. -/
def pushUnique (acc : List Nat) (idx : Nat) : List Nat :=
  if idx ∈ acc then acc else acc ++ [idx]

/-- First `GroupBy` operator of an operator list (the `for`/`if let` scan in
`calculate_groupby_projection`, lines 359-388). -/
def findFirstGroupBy : List Operator → Option (List ColumnRef × List (String × AggCall))
  | [] => none
  | .GroupBy keys aggs :: _ => some (keys, aggs)
  | _ :: ops => findFirstGroupBy ops

/-- Collect grouping-key column indices (lines 365-371). -/
def collectKeyIdx (fullSchema : List String) :
    List ColumnRef → List Nat → Except TranslateError (List Nat)
  | [], acc => .ok acc
  | key :: keys, acc =>
    match position (fun name => name == key.column) fullSchema with
    | none =>
      .error (.Translation ("Column " ++ sq ++ key.column ++ sq ++ " not found"))
    | some idx => collectKeyIdx fullSchema keys (pushUnique acc idx)

/-- Collect the column indices of one aggregate call's arguments
(lines 375-383); only top-level `Expr::Column` arguments count. -/
def collectArgIdx (fullSchema : List String) :
    List Expr → List Nat → Except TranslateError (List Nat)
  | [], acc => .ok acc
  | .Column col :: rest, acc =>
    match position (fun name => name == col.column) fullSchema with
    | none =>
      .error (.Translation ("Column " ++ sq ++ col.column ++ sq ++ " not found"))
    | some idx => collectArgIdx fullSchema rest (pushUnique acc idx)
  | _ :: rest, acc => collectArgIdx fullSchema rest acc

/-- Collect aggregate-argument column indices over all aggregate calls
(`aggs.values()`, in map iteration order; lines 374-384). -/
def collectAggIdx (fullSchema : List String) :
    List (String × AggCall) → List Nat → Except TranslateError (List Nat)
  | [], acc => .ok acc
  | (_, aggCall) :: rest, acc =>
    match collectArgIdx fullSchema aggCall.args acc with
    | .error e => .error e
    | .ok acc1 => collectAggIdx fullSchema rest acc1

/-- `SubstraitTranslator::calculate_groupby_projection` (lines 357-390). -/
def calculateGroupbyProjection (sp : SchemaProvider) (pipeline : Pipeline) :
    Except TranslateError (Option (List Nat)) :=
  match findFirstGroupBy pipeline.ops with
  | none => .ok none
  | some (keys, aggs) =>
    match getOutputNames sp pipeline.source with
    | .error e => .error e
    | .ok fullSchema =>
      match collectKeyIdx fullSchema keys [] with
      | .error e => .error e
      | .ok acc =>
        match collectAggIdx fullSchema aggs acc with
        | .error e => .error e
        | .ok needed => .ok (some needed)

/-- ASCII uppercase of one character (kernel-reducible model of
`char::to_uppercase` on the ASCII type names the provider emits). -/
def charToUpper (c : Char) : Char :=
  if ('a' : Char) ≤ c && c ≤ 'z' then Char.ofNat (c.toNat - 32) else c

/-- Uppercase every character. -/
def toUpperChars : List Char → List Char
  | [] => []
  | c :: cs => charToUpper c :: toUpperChars cs

/-- `str::to_uppercase`. -/
def strToUpper (s : String) : String :=
  String.mk (toUpperChars s.data)

/-- `SubstraitTranslator::map_type` (lines 1050-1102): SQL type string →
Substrait kind, case-insensitive, defaulting to string. -/
def mapType (typeStr : String) (nullable : Bool) : SKind :=
  let nullability : Int := if nullable then 1 else 2
  match strToUpper typeStr with
  | "INTEGER" => .I32 nullability
  | "INT" => .I32 nullability
  | "INT32" => .I32 nullability
  | "BIGINT" => .I64 nullability
  | "INT64" => .I64 nullability
  | "VARCHAR" => .String nullability
  | "STRING" => .String nullability
  | "TEXT" => .String nullability
  | "DOUBLE" => .Fp64 nullability
  | "FLOAT64" => .Fp64 nullability
  | "FLOAT" => .Fp32 nullability
  | "FLOAT32" => .Fp32 nullability
  | _ => .String nullability

/-- `SubstraitTranslator::translate_source_with_projection` (lines 392-449):
emit a `ReadRel` for a `Table` source, carrying the optional struct-mask
projection; the struct-level nullability is `Required` (= 2). -/
def translateSourceWithProjection (sp : SchemaProvider) (source : Source)
    (projection : Option (List Nat)) : Except TranslateError Rel :=
  match source with
  | .Table name _ =>
    match sp name with
    | .error e => .error (.Schema e)
    | .ok schema =>
      .ok (.Read name (schema.columns.map (·.name))
        (schema.columns.map (fun c => mapType c.dataType c.nullable)) 2 projection)
  | _ => .error (.UnsupportedOperator "Only Table sources supported currently")

/-- `SubstraitTranslator::translate_column_ref_with_root` (lines 880-916):
resolve a column name to a positional field index in `schema`; emit a
`FieldReference`, with a `RootReference` marker iff `useRootReference`. -/
def translateColumnRefWithRoot (col : ColumnRef) (schema : List String)
    (useRootReference : Bool) : Except TranslateError SExpression :=
  match position (fun name => name == col.column) schema with
  | none =>
    .error (.Translation ("Column " ++ sq ++ col.column ++ sq ++
      " not found in schema. Available columns: " ++ debugStrList schema))
  | some fieldIndex =>
    .ok (.Selection { field := fieldIndex,
                      rootType := if useRootReference then .RootRef else .NoRoot })

/-- `SubstraitTranslator::translate_column_ref` (lines 876-878). -/
def translateColumnRef (col : ColumnRef) (schema : List String) :
    Except TranslateError SExpression :=
  translateColumnRefWithRoot col schema false

/-- Abbreviated `{:?}` rendering of a `Value`, used only in error strings. -/
def reprValue : Value → String
  | .Null => "Null"
  | .Bool _ => "Bool"
  | .Int _ => "Int"
  | .Float _ => "Float"
  | .String _ => "String"
  | .Bytes _ => "Bytes"
  | .Date _ => "Date"
  | .Time _ => "Time"
  | .Timestamp _ => "Timestamp"
  | .Array _ => "Array"
  | .Object _ => "Object"

/-- Abbreviated `{:?}` rendering of an `Expr`, used only in error strings. -/
def reprExpr : Expr → String
  | .Literal _ => "Literal"
  | .Column _ => "Column"
  | .BinaryOp _ _ _ => "BinaryOp"
  | .UnaryOp _ _ => "UnaryOp"
  | .FuncCall _ _ => "FuncCall"
  | .FieldAccess _ _ => "FieldAccess"
  | .Index _ _ => "Index"
  | .Array _ => "Array"
  | .Object _ => "Object"
  | .Vector _ => "Vector"
  | .InRange _ _ _ _ => "InRange"
  | .InSet _ _ => "InSet"

/-- `SubstraitTranslator::translate_literal` (lines 839-874). -/
def translateLiteral (value : Value) : Except TranslateError SExpression :=
  match value with
  | .Null => .ok (.Literal { nullable := true, literalType := .Null })
  | .Bool b => .ok (.Literal { nullable := false, literalType := .Boolean b })
  | .Int i => .ok (.Literal { nullable := false, literalType := .I64 i })
  | .Float f => .ok (.Literal { nullable := false, literalType := .Fp64 f })
  | .String s => .ok (.Literal { nullable := false, literalType := .String s })
  | other =>
    .error (.UnsupportedOperator
      ("Literal value " ++ reprValue other ++ " not yet supported"))

/-- Substrait base name for a binary operator (lines 923-939); `Mod` (and
only `Mod`) falls to the unsupported arm. -/
def binOpBaseName : BinOp → Option String
  | .Eq => some "equal"
  | .Ne => some "not_equal"
  | .Lt => some "lt"
  | .Le => some "lte"
  | .Gt => some "gt"
  | .Ge => some "gte"
  | .And => some "and"
  | .Or => some "or"
  | .Add => some "add"
  | .Sub => some "subtract"
  | .Mul => some "multiply"
  | .Div => some "divide"
  | .Like => some "like"
  | .ILike => some "ilike"
  | .Mod => none

/-- `SubstraitTranslator::translate_expr` (lines 829-837) together with
`translate_binary_op` (918-967) and `translate_unary_op` (969-1002); the
function registry is threaded through the scalar-function registrations. -/
def translateExpr (schema : List String) :
    Expr → FunctionRegistry → Except TranslateError (SExpression × FunctionRegistry)
  | .Literal value, reg =>
    match translateLiteral value with
    | .error e => .error e
    | .ok lit => .ok (lit, reg)
  | .Column col, reg =>
    match translateColumnRef col schema with
    | .error e => .error e
    | .ok sel => .ok (sel, reg)
  | .BinaryOp op left right, reg =>
    match translateExpr schema left reg with
    | .error e => .error e
    | .ok (leftExpr, reg1) =>
      match translateExpr schema right reg1 with
      | .error e => .error e
      | .ok (rightExpr, reg2) =>
        match binOpBaseName op with
        | none =>
          .error (.UnsupportedOperator
            ("Binary operator " ++ reprBinOp op ++ " not yet supported"))
        | some baseName =>
          let functionSignature := baseName ++ ":i32_i32"
          let (anchor, reg3) := reg2.register functionSignature
          .ok (.ScalarFunction anchor [leftExpr, rightExpr], reg3)
  | .UnaryOp op inner, reg =>
    match translateExpr schema inner reg with
    | .error e => .error e
    | .ok (innerExpr, reg1) =>
      let functionSignature :=
        match op with
        | .Not => "not:bool"
        | .Neg => "negate:i32"
      let (anchor, reg2) := reg1.register functionSignature
      .ok (.ScalarFunction anchor [innerExpr], reg2)
  | other, _ =>
    .error (.UnsupportedOperator ("Expression " ++ reprExpr other ++ " not yet supported"))

/-- State-threading `iter().map(..).collect::<Result<Vec<_>, _>>()` where
the closure may register functions. -/
def mapMS (f : α → FunctionRegistry → Except TranslateError (β × FunctionRegistry)) :
    List α → FunctionRegistry → Except TranslateError (List β × FunctionRegistry)
  | [], reg => .ok ([], reg)
  | a :: as, reg =>
    match f a reg with
    | .error e => .error e
    | .ok (b, reg1) =>
      match mapMS f as reg1 with
      | .error e => .error e
      | .ok (bs, reg2) => .ok (b :: bs, reg2)

/-- `SubstraitTranslator::translate_filter` (lines 464-480). -/
def translateFilter (input : Rel) (condition : Expr) (schema : List String)
    (reg : FunctionRegistry) : Except TranslateError (Rel × FunctionRegistry) :=
  match translateExpr schema condition reg with
  | .error e => .error e
  | .ok (cond, reg1) => .ok (.Filter input cond, reg1)

/-- The per-projection expression of `translate_select` (lines 484-493):
aliases are dropped here (handled at the relation level). -/
def translateProjection (schema : List String) (proj : Projection)
    (reg : FunctionRegistry) : Except TranslateError (SExpression × FunctionRegistry) :=
  match proj with
  | .Expr e => translateExpr schema e reg
  | .Aliased e _ => translateExpr schema e reg

/-- `SubstraitTranslator::translate_select` (lines 482-509). -/
def translateSelect (input : Rel) (projections : List Projection)
    (schema : List String) (reg : FunctionRegistry) :
    Except TranslateError (Rel × FunctionRegistry) :=
  match mapMS (translateProjection schema) projections reg with
  | .error e => .error e
  | .ok (expressions, reg1) => .ok (.Project input expressions, reg1)

/-- `SubstraitTranslator::translate_sort` (lines 511-544); the direction is
`DESC_NULLS_LAST = 4` for `desc`, `ASC_NULLS_FIRST = 1` otherwise. -/
def translateSort (input : Rel) (keys : List SortKey) (schema : List String)
    (reg : FunctionRegistry) : Except TranslateError (Rel × FunctionRegistry) :=
  match mapMS (fun (key : SortKey) reg1 =>
      match translateExpr schema key.expr reg1 with
      | .error e => .error e
      | .ok (e, reg2) =>
        .ok ((e, if key.desc then (4 : Int) else 1), reg2)) keys reg with
  | .error e => .error e
  | .ok (sorts, reg1) => .ok (.Sort input sorts, reg1)

/-- `SubstraitTranslator::translate_take` (lines 546-563): a `FetchRel`
using the deprecated `offset = 0` / `count = limit` scalar fields. -/
def translateTake (input : Rel) (limit : Int) : Rel :=
  .Fetch input 0 limit

/-- The field-reference list of `translate_distinct` (lines 574-596): one
`RootReference`-marked reference per column of the current schema. -/
def distinctGroupingExprs (schema : List String) : List SExpression :=
  (List.range schema.length).map
    (fun idx => .Selection { field := idx, rootType := .RootRef })

/-- `SubstraitTranslator::translate_distinct` (lines 565-621): an
`AggregateRel` grouping on every column (deprecated inner
`grouping_expressions` field) with no measures.  The Rust signature returns
`Result` but the body is infallible. -/
def translateDistinct (input : Rel) (schema : List String) : Rel :=
  .Aggregate input
    [{ groupingExpressions := distinctGroupingExprs schema, expressionReferences := [] }]
    [] []

/-- `SubstraitTranslator::translate_aggregate_with_root` (lines 736-781):
bare column arguments get a `RootReference`-marked field reference, other
arguments go through `translate_expr`; the aggregate function is registered
as `<func>:i32` and declared to output nullable i64. -/
def translateAggregateWithRoot (aggCall : AggCall) (schema : List String)
    (reg : FunctionRegistry) : Except TranslateError (Measure × FunctionRegistry) :=
  match mapMS (fun (argExpr : Expr) reg1 =>
      match argExpr with
      | .Column col =>
        match translateColumnRefWithRoot col schema true with
        | .error e => .error e
        | .ok sel => .ok (sel, reg1)
      | other => translateExpr schema other reg1) aggCall.args reg with
  | .error e => .error e
  | .ok (arguments, reg1) =>
    let functionSig := aggCall.func ++ ":i32"
    let (anchor, reg2) := reg1.register functionSig
    .ok ({ measure :=
            { functionReference := anchor,
              arguments := arguments,
              outputType := some (.I64 1) } }, reg2)

/-- Registry-free `iter().map(..).collect::<Result<Vec<_>, _>>()`. -/
def mapME (f : α → Except TranslateError β) :
    List α → Except TranslateError (List β)
  | [] => .ok []
  | a :: as =>
    match f a with
    | .error e => .error e
    | .ok b =>
      match mapME f as with
      | .error e => .error e
      | .ok bs => .ok (b :: bs)

/-- Grouping-key field reference of `translate_groupby` (lines 677-702):
resolved in the (projected) schema, `RootReference`-marked. -/
def groupbyKeyExpr (schema : List String) (key : ColumnRef) :
    Except TranslateError SExpression :=
  match position (fun name => name == key.column) schema with
  | none =>
    .error (.Translation ("Column " ++ sq ++ key.column ++ sq ++ " not found in schema"))
  | some idx => .ok (.Selection { field := idx, rootType := .RootRef })

/-- `SubstraitTranslator::translate_groupby` (lines 666-734): grouping keys
become `RootReference`-marked field references in the deprecated inner
`grouping_expressions` field; measures come from the aggs map in iteration
order; the relation-level `grouping_expressions` is left empty. -/
def translateGroupby (input : Rel) (keys : List ColumnRef)
    (aggs : List (String × AggCall)) (schema : List String)
    (reg : FunctionRegistry) : Except TranslateError (Rel × FunctionRegistry) :=
  match mapME (groupbyKeyExpr schema) keys with
  | .error e => .error e
  | .ok groupingExpressions =>
    match mapMS (fun (entry : String × AggCall) reg1 =>
        translateAggregateWithRoot entry.2 schema reg1) aggs reg with
    | .error e => .error e
    | .ok (measures, reg1) =>
      .ok (.Aggregate input
        [{ groupingExpressions := groupingExpressions, expressionReferences := [] }]
        measures [], reg1)

/-- Substrait join-type enum value (lines 636-647); `Cross` is rejected. -/
def joinTypeCodeOf : Option JoinType → Except TranslateError Int
  | none => .ok 1
  | some .Inner => .ok 1
  | some .Left => .ok 3
  | some .Right => .ok 4
  | some .Full => .ok 2
  | some .Semi => .ok 5
  | some .Anti => .ok 6
  | some .Cross => .error (.UnsupportedOperator "Cross join not yet supported")

/-- `SubstraitTranslator::translate_join` (lines 623-664): translate the
right source, resolve the condition against `left ++ right` columns. -/
def translateJoin (sp : SchemaProvider) (leftInput : Rel) (rightSource : Source)
    (condition : Expr) (joinType : Option JoinType) (leftSchema : List String)
    (reg : FunctionRegistry) : Except TranslateError (Rel × FunctionRegistry) :=
  match translateSourceWithProjection sp rightSource none with
  | .error e => .error e
  | .ok rightRel =>
    match getOutputNames sp rightSource with
    | .error e => .error e
    | .ok rightSchema =>
      let combinedSchema := leftSchema ++ rightSchema
      match translateExpr combinedSchema condition reg with
      | .error e => .error e
      | .ok (joinExpr, reg1) =>
        match joinTypeCodeOf joinType with
        | .error e => .error e
        | .ok code => .ok (.Join leftInput rightRel joinExpr code, reg1)

/-- `SubstraitTranslator::translate_operator` (lines 451-462). -/
def translateOperator (sp : SchemaProvider) (op : Operator) (input : Rel)
    (schema : List String) (reg : FunctionRegistry) :
    Except TranslateError (Rel × FunctionRegistry) :=
  match op with
  | .Filter condition => translateFilter input condition schema reg
  | .Select projections => translateSelect input projections schema reg
  | .Sort keys => translateSort input keys schema reg
  | .Take limit => .ok (translateTake input limit, reg)
  | .Distinct => .ok (translateDistinct input schema, reg)
  | .GroupBy keys aggs => translateGroupby input keys aggs schema reg
  | .Join source onCond joinType => translateJoin sp input source onCond joinType schema reg
  | other =>
    .error (.UnsupportedOperator ("Operator " ++ reprOperator other ++ " not yet supported"))

/-- The operator fold of `translate_pipeline` (lines 349-352): the current
schema is NOT updated between operators (the `TODO` in the source). -/
def translateOpsFold (sp : SchemaProvider) :
    List Operator → Rel → List String → FunctionRegistry →
    Except TranslateError (Rel × FunctionRegistry)
  | [], rel, _, reg => .ok (rel, reg)
  | op :: ops, rel, schema, reg =>
    match translateOperator sp op rel schema reg with
    | .error e => .error e
    | .ok (rel1, reg1) => translateOpsFold sp ops rel1 schema reg1

/-- Lines 327-334 of `translate_pipeline`: compute the `Read`-side
projection iff some operator is a `GroupBy`. -/
def pipelineProjectionFields (sp : SchemaProvider) (pipeline : Pipeline) :
    Except TranslateError (Option (List Nat)) :=
  if pipeline.ops.any (fun op => match op with | .GroupBy _ _ => true | _ => false) then
    calculateGroupbyProjection sp pipeline
  else
    .ok none

/-- Lines 340-346 of `translate_pipeline`: the schema context from the
source — the projected column subset when a projection applies. -/
def startSchemaFrom (sp : SchemaProvider) (pipeline : Pipeline) :
    Option (List Nat) → Except TranslateError (List String)
  | some fields =>
    match getOutputNames sp pipeline.source with
    | .error e => .error e
    | .ok fullSchema => .ok (fields.map (fun idx => fullSchema.getD idx ""))
  | none => getOutputNames sp pipeline.source

/-- The current schema `translate_pipeline` uses for every operator. -/
def pipelineStartSchema (sp : SchemaProvider) (pipeline : Pipeline) :
    Except TranslateError (List String) :=
  match pipelineProjectionFields sp pipeline with
  | .error e => .error e
  | .ok projectionFields => startSchemaFrom sp pipeline projectionFields

/-- `SubstraitTranslator::translate_pipeline` (lines 325-355). -/
def translatePipeline (sp : SchemaProvider) (pipeline : Pipeline)
    (reg : FunctionRegistry) : Except TranslateError (Rel × FunctionRegistry) :=
  match pipelineProjectionFields sp pipeline with
  | .error e => .error e
  | .ok projectionFields =>
    match translateSourceWithProjection sp pipeline.source projectionFields with
    | .error e => .error e
    | .ok rel =>
      match startSchemaFrom sp pipeline projectionFields with
      | .error e => .error e
      | .ok currentSchema => translateOpsFold sp pipeline.ops rel currentSchema reg

/-- The single extension URI the translator declares (lines 230-233). -/
def substraitExtensionUri : String :=
  "https://github.com/substrait-io/substrait/blob/main/extensions/functions_arithmetic.yaml"

/-- `SubstraitTranslator::generate_extensions` (lines 220-250): no URIs and
no declarations when no function was registered; otherwise one URI with
anchor 1 and one declaration per registered function, sorted by anchor. -/
def generateExtensions (reg : FunctionRegistry) :
    List SimpleExtensionUri × List ExtensionFunction :=
  let functions := reg.getFunctions
  if functions.isEmpty then
    ([], [])
  else
    ([{ extensionUriAnchor := 1, uri := substraitExtensionUri }],
     functions.map (fun entry =>
       { extensionUriReference := 1, functionAnchor := entry.2, name := entry.1 }))

/-- `SubstraitTranslator::translate` (lines 184-217): translate the main
pipeline, compute the final output names, wrap in a root relation, and
attach version (minor 53) and extensions.  The registry starts fresh per
translation (`SubstraitTranslator::new`). -/
def translate (sp : SchemaProvider) (program : Program) : Except TranslateError Plan :=
  match translatePipeline sp program.pipeline FunctionRegistry.new with
  | .error e => .error e
  | .ok (rootRel, reg) =>
    match getPipelineOutputNames sp program.pipeline with
    | .error e => .error e
    | .ok names =>
      let (extensionUris, extensions) := generateExtensions reg
      .ok { versionMinor := 53,
            extensionUris := extensionUris,
            extensions := extensions,
            relations := [{ input := rootRel, names := names }] }

/-! ## SQL lowering (crates/mlql-duck/src/lib.rs) -/

/-- `enum ExecutionError` (mlql-duck lines 6-19).  The Substrait-labelled
variant is named `SubstraitError` in the source (display text
`Substrait execution failed: {0}`). -/
inductive ExecutionError
  | Database (msg : String)
  | BudgetExceeded (msg : String)
  | Timeout
  | SubstraitError (msg : String)
deriving DecidableEq

/-- `column_ref_to_sql` (lines 340-346). -/
def columnRefToSql (col : ColumnRef) : String :=
  match col.table with
  | some table => table ++ "." ++ col.column
  | none => col.column

/-- `binop_to_sql` (lines 348-366). -/
def binopToSql : BinOp → String
  | .Add => "+" | .Sub => "-" | .Mul => "*" | .Div => "/" | .Mod => "%"
  | .Eq => "=" | .Ne => "!=" | .Lt => "<" | .Le => "<=" | .Gt => ">" | .Ge => ">="
  | .And => "AND" | .Or => "OR" | .Like => "LIKE" | .ILike => "ILIKE"

/-- Render an `Int` the way Rust `Display` does. -/
def intToSql (i : Int) : String :=
  if i < 0 then "-" ++ toString (-i).toNat else toString i.toNat

/-- `s.replace("'", "''")`: double every single quote (char-level model of
the single-character-pattern `str::replace`). -/
def doubleQuotesChars : List Char → List Char
  | [] => []
  | c :: cs =>
    if c == Char.ofNat 39 then c :: c :: doubleQuotesChars cs
    else c :: doubleQuotesChars cs

/-- `literal_to_sql` (lines 368-377): unhandled value variants fall back to
the SQL literal `NULL` (the `_ => "NULL"` TODO arm). -/
def literalToSql (val : Value) : String :=
  match val with
  | .Null => "NULL"
  | .Bool b => if b then "TRUE" else "FALSE"
  | .Int i => intToSql i
  | .Float f => f.repr
  | .String s => sq ++ String.mk (doubleQuotesChars s.data) ++ sq
  | _ => "NULL"

mutual

/-- `expr_to_sql` (lines 325-338): unhandled expression variants fall back
to the SQL literal `NULL` (the `_ => "NULL"` TODO arm), without error. -/
def exprToSql : Expr → String
  | .Column col => columnRefToSql col
  | .Literal value => literalToSql value
  | .BinaryOp op left right =>
    "(" ++ exprToSql left ++ " " ++ binopToSql op ++ " " ++ exprToSql right ++ ")"
  | .FuncCall func args =>
    func ++ "(" ++ String.intercalate ", " (exprToSqlList args) ++ ")"
  | _ => "NULL"

/-- `args.iter().map(expr_to_sql).collect()`. -/
def exprToSqlList : List Expr → List String
  | [] => []
  | e :: es => exprToSql e :: exprToSqlList es

end

/-- The per-projection rendering inside the `Select` arm of
`build_sql_query` (lines 200-215): the wildcard column reference `*`
(no table) renders as `*`. -/
def sqlProjectionItem (proj : Projection) : String :=
  match proj with
  | .Expr e =>
    match e with
    | .Column col =>
      if col.column == "*" && col.table == none then "*" else exprToSql e
    | _ => exprToSql e
  | .Aliased e aliasName => exprToSql e ++ " AS " ++ aliasName

/-- The mutable clause state of `build_sql_query` (lines 187-193). -/
structure SqlState where
  selectClause : String
  fromClause : String
  whereClause : Option String
  groupClause : Option String
  orderClause : Option String
  limitClause : Option String
  distinct : Bool
deriving DecidableEq

/-- SQL fragment for a join type (lines 224-232); `Semi`/`Anti` are
rejected. -/
def joinTypeSql : Option JoinType → Except ExecutionError String
  | some .Inner => .ok "INNER JOIN"
  | none => .ok "INNER JOIN"
  | some .Left => .ok "LEFT JOIN"
  | some .Right => .ok "RIGHT JOIN"
  | some .Full => .ok "FULL OUTER JOIN"
  | some .Cross => .ok "CROSS JOIN"
  | some .Semi => .error (.SubstraitError "SEMI JOIN not yet supported")
  | some .Anti => .error (.SubstraitError "ANTI JOIN not yet supported")

/-- Source rendering used by both the `FROM` clause and the join arm
(lines 170-179 and 235-244), for `Table` sources. -/
def tableSourceSql : Source → Except ExecutionError String
  | .Table name aliasName =>
    match aliasName with
    | some a => .ok (name ++ " AS " ++ a)
    | none => .ok name
  | _ => .error (.SubstraitError "Unsupported JOIN source type")

/-- One iteration of the operator loop in `build_sql_query`
(lines 196-300). -/
def sqlStep (st : SqlState) (op : Operator) : Except ExecutionError SqlState :=
  match op with
  | .Select projections =>
    .ok { st with selectClause :=
            String.intercalate ", " (projections.map sqlProjectionItem) }
  | .Filter condition =>
    .ok { st with whereClause := some (exprToSql condition) }
  | .Join source onCond joinType =>
    match joinTypeSql joinType with
    | .error e => .error e
    | .ok joinSql =>
      match tableSourceSql source with
      | .error e => .error e
      | .ok sourceSql =>
        .ok { st with fromClause :=
                st.fromClause ++ " " ++ joinSql ++ " " ++ sourceSql ++ " ON " ++
                exprToSql onCond }
  | .GroupBy keys aggs =>
    let groupKeys := keys.map columnRefToSql
    let aggItems := aggs.map (fun entry =>
      let aggArgs := entry.2.args.map exprToSql
      let aggExpr :=
        if aggArgs.isEmpty then entry.2.func ++ "(*)"
        else entry.2.func ++ "(" ++ String.intercalate ", " aggArgs ++ ")"
      aggExpr ++ " AS " ++ entry.1)
    .ok { st with
            selectClause := String.intercalate ", " (groupKeys ++ aggItems),
            groupClause := some (String.intercalate ", " groupKeys) }
  | .Sort keys =>
    .ok { st with orderClause := some (String.intercalate ", "
            (keys.map (fun key =>
              exprToSql key.expr ++ (if key.desc then " DESC" else " ASC")))) }
  | .Take limit =>
    .ok { st with limitClause := some (intToSql limit) }
  | .Distinct =>
    .ok { st with distinct := true }
  | other =>
    .error (.SubstraitError ("Unsupported operator: " ++ reprOperator other))

/-- The operator loop of `build_sql_query`. -/
def sqlLoop : List Operator → SqlState → Except ExecutionError SqlState
  | [], st => .ok st
  | op :: ops, st =>
    match sqlStep st op with
    | .error e => .error e
    | .ok st1 => sqlLoop ops st1

/-- Final SQL assembly of `build_sql_query` (lines 302-322). -/
def renderSql (st : SqlState) : String :=
  let distinctSql := if st.distinct then "DISTINCT " else ""
  let base := "SELECT " ++ distinctSql ++ st.selectClause ++ " FROM " ++ st.fromClause
  let base := match st.whereClause with
    | some w => base ++ " WHERE " ++ w
    | none => base
  let base := match st.groupClause with
    | some g => base ++ " GROUP BY " ++ g
    | none => base
  let base := match st.orderClause with
    | some o => base ++ " ORDER BY " ++ o
    | none => base
  match st.limitClause with
  | some l => base ++ " LIMIT " ++ l
  | none => base

/-- `build_sql_query` (lines 186-323). -/
def buildSqlQuery (table : String) (operators : List Operator) :
    Except ExecutionError String :=
  match sqlLoop operators
      { selectClause := "*", fromClause := table, whereClause := none,
        groupClause := none, orderClause := none, limitClause := none,
        distinct := false } with
  | .error e => .error e
  | .ok st => .ok (renderSql st)

/-- `ir_to_sql` (lines 166-183). -/
def irToSql (program : Program) : Except ExecutionError String :=
  match program.pipeline.source with
  | .Table name aliasName =>
    let tableName := match aliasName with
      | some a => name ++ " AS " ++ a
      | none => name
    buildSqlQuery tableName program.pipeline.ops
  | _ => .error (.SubstraitError "Unsupported source type")

/-- Result rows of an executed query (`struct QueryResult`). -/
structure QueryResult where
  columns : List String
  rowCount : Nat
deriving DecidableEq

/-- `DuckExecutor::execute_ir` (lines 42-59) with the database effect
abstracted as the `runSql` argument (`execute_sql`); budget application is
a database-side effect and is orthogonal to the lowering, so it is not
modelled.  On a lowering error the `?` operator returns before any query
reaches the engine: the result is independent of `runSql`. -/
def executeIr (runSql : String → Except ExecutionError QueryResult)
    (program : Program) : Except ExecutionError QueryResult :=
  match irToSql program with
  | .error e => .error e
  | .ok sql => runSql sql

/-! ## JSON documents and rendering

A model of `serde_json::Value` and of `serde_json::to_string`'s compact
rendering, used for the fingerprint (`Program::fingerprint`, lib.rs lines
25-33) and for the deserialization claims.  Objects carry their members in
order.  Numbers distinguish the integral (`i64`) and floating cases, the
latter carried by its decimal rendering (see `F64`). -/

/-- Opening brace as a string. -/
def lb : String := "\x7b"

/-- Closing brace as a string. -/
def rb : String := "\x7d"

/-- Backslash character. -/
def bsChar : Char := Char.ofNat 92

/-- Double-quote character. -/
def dqChar : Char := Char.ofNat 34

/-- A JSON document. -/
inductive Json
  | null
  | bool (b : Bool)
  | num (n : Int)
  | fnum (f : F64)
  | str (s : String)
  | arr (xs : List Json)
  | obj (members : List (String × Json))

/-- Lowercase hex digit. -/
def hexDigit (n : Nat) : Char :=
  if n < 10 then Char.ofNat (48 + n) else Char.ofNat (87 + n)

/-- serde_json's string escaping for one character: `\"`, `\\`, the short
control escapes `\b \t \n \f \r`, `\u00XX` for other control characters,
everything else verbatim. -/
def escapeJsonChar (c : Char) : List Char :=
  if c == dqChar then [bsChar, dqChar]
  else if c == bsChar then [bsChar, bsChar]
  else if c.toNat == 8 then [bsChar, Char.ofNat 98]
  else if c.toNat == 9 then [bsChar, Char.ofNat 116]
  else if c.toNat == 10 then [bsChar, Char.ofNat 110]
  else if c.toNat == 12 then [bsChar, Char.ofNat 102]
  else if c.toNat == 13 then [bsChar, Char.ofNat 114]
  else if c.toNat < 32 then
    [bsChar, Char.ofNat 117, Char.ofNat 48, Char.ofNat 48,
     hexDigit (c.toNat / 16), hexDigit (c.toNat % 16)]
  else [c]

/-- Escape every character of a string body. -/
def escapeJsonChars : List Char → List Char
  | [] => []
  | c :: cs => escapeJsonChar c ++ escapeJsonChars cs

/-- A JSON string token: quoted, escaped. -/
def jsonStr (s : String) : String :=
  String.singleton dqChar ++ String.mk (escapeJsonChars s.data) ++ String.singleton dqChar

/-- Rust `Display` of an `Int` (used for `i64` serialization). -/
def intDisplay (i : Int) : String :=
  if i < 0 then "-" ++ toString (-i).toNat else toString i.toNat

mutual

/-- Compact rendering, as `serde_json::to_string` produces: no whitespace,
`,` and `:` separators, members in carried order. -/
def jsonRender : Json → String
  | .null => "null"
  | .bool b => if b then "true" else "false"
  | .num n => intDisplay n
  | .fnum f => f.repr
  | .str s => jsonStr s
  | .arr xs => "[" ++ jsonRenderArr xs ++ "]"
  | .obj members => lb ++ jsonRenderObj members ++ rb

/-- Comma-separated array elements. -/
def jsonRenderArr : List Json → String
  | [] => ""
  | [x] => jsonRender x
  | x :: xs => jsonRender x ++ "," ++ jsonRenderArr xs

/-- Comma-separated `"key":value` members. -/
def jsonRenderObj : List (String × Json) → String
  | [] => ""
  | [(k, v)] => jsonStr k ++ ":" ++ jsonRender v
  | (k, v) :: rest => jsonStr k ++ ":" ++ jsonRender v ++ "," ++ jsonRenderObj rest

end

/-! ## SHA-256 (the `sha2` crate dependency of `Program::fingerprint`) -/

/-- Truncate to 32 bits. -/
def w32 (n : Nat) : Nat := n % 4294967296

/-- 32-bit right rotation. -/
def rotr (k x : Nat) : Nat := w32 ((x >>> k) ||| (x <<< (32 - k)))

/-- SHA-256 `Ch(e, f, g)`. -/
def shaCh (e f g : Nat) : Nat := (e &&& f) ^^^ ((4294967295 - e) &&& g)

/-- SHA-256 `Maj(a, b, c)`. -/
def shaMaj (a b c : Nat) : Nat := (a &&& b) ^^^ (a &&& c) ^^^ (b &&& c)

/-- SHA-256 `Σ0`. -/
def shaS0 (x : Nat) : Nat := rotr 2 x ^^^ rotr 13 x ^^^ rotr 22 x

/-- SHA-256 `Σ1`. -/
def shaS1 (x : Nat) : Nat := rotr 6 x ^^^ rotr 11 x ^^^ rotr 25 x

/-- SHA-256 `σ0`. -/
def shaLS0 (x : Nat) : Nat := rotr 7 x ^^^ rotr 18 x ^^^ (x >>> 3)

/-- SHA-256 `σ1`. -/
def shaLS1 (x : Nat) : Nat := rotr 17 x ^^^ rotr 19 x ^^^ (x >>> 10)

/-- The 64 SHA-256 round constants (FIPS 180-4 section 4.2.2, written in
decimal). -/
def shaK : List Nat :=
  [1116352408, 1899447441, 3049323471, 3921009573, 961987163,
   1508970993, 2453635748, 2870763221, 3624381080, 310598401,
   607225278, 1426881987, 1925078388, 2162078206, 2614888103,
   3248222580, 3835390401, 4022224774, 264347078, 604807628,
   770255983, 1249150122, 1555081692, 1996064986, 2554220882,
   2821834349, 2952996808, 3210313671, 3336571891, 3584528711,
   113926993, 338241895, 666307205, 773529912, 1294757372,
   1396182291, 1695183700, 1986661051, 2177026350, 2456956037,
   2730485921, 2820302411, 3259730800, 3345764771, 3516065817,
   3600352804, 4094571909, 275423344, 430227734, 506948616,
   659060556, 883997877, 958139571, 1322822218, 1537002063,
   1747873779, 1955562222, 2024104815, 2227730452, 2361852424,
   2428436474, 2756734187, 3204031479, 3329325298]

/-- The SHA-256 initial hash values (FIPS 180-4 section 5.3.3, decimal). -/
def shaH0 : List Nat :=
  [1779033703, 3144134277, 1013904242, 2773480762,
   1359893119, 2600822924, 528734635, 1541459225]

/-- Group 4 bytes (big-endian) into one 32-bit word, 16 words per block. -/
def bytesToWords : List Nat → List Nat
  | b0 :: b1 :: b2 :: b3 :: rest =>
    (((b0 * 256 + b1) * 256 + b2) * 256 + b3) :: bytesToWords rest
  | _ => []

/-- Extend the 16-word schedule to 64 words (`fuel` counts words to add). -/
def extendSchedule (fuel : Nat) (w : List Nat) : List Nat :=
  match fuel with
  | 0 => w
  | f + 1 =>
    let t := w.length
    let wt := w32 (shaLS1 (w.getD (t - 2) 0) + w.getD (t - 7) 0 +
                   shaLS0 (w.getD (t - 15) 0) + w.getD (t - 16) 0)
    extendSchedule f (w ++ [wt])

/-- The 64 compression rounds, folding over zipped `(K, W)` pairs. -/
def shaRounds : List (Nat × Nat) → List Nat → List Nat
  | [], state => state
  | (k, wt) :: rest, state =>
    match state with
    | [a, b, c, d, e, f, g, h] =>
      let t1 := w32 (h + shaS1 e + shaCh e f g + k + wt)
      let t2 := w32 (shaS0 a + shaMaj a b c)
      shaRounds rest [w32 (t1 + t2), a, b, c, w32 (d + t1), e, f, g]
    | other => other

/-- Compress one 64-byte block into the running hash state. -/
def shaCompress (state : List Nat) (block : List Nat) : List Nat :=
  let w := extendSchedule 48 (bytesToWords block)
  let out := shaRounds (shaK.zip w) state
  (state.zip out).map (fun p => w32 (p.1 + p.2))

/-- Split padded input into 64-byte blocks and fold `shaCompress`; `fuel`
bounds the number of blocks (structural recursion so the kernel can
evaluate digests). -/
def shaBlocksFuel : Nat → List Nat → List Nat → List Nat
  | 0, state, _ => state
  | fuel + 1, state, bytes =>
    match bytes with
    | [] => state
    | _ => shaBlocksFuel fuel (shaCompress state (bytes.take 64)) (bytes.drop 64)

/-- Fold `shaCompress` over all 64-byte blocks (the fuel `length / 64 + 1`
strictly exceeds the block count, so it never runs out). -/
def shaBlocks (state : List Nat) (bytes : List Nat) : List Nat :=
  shaBlocksFuel (bytes.length / 64 + 1) state bytes

/-- Big-endian 8-byte encoding of the bit length. -/
def be64 (n : Nat) : List Nat :=
  [n / 72057594037927936 % 256, n / 281474976710656 % 256,
   n / 1099511627776 % 256, n / 4294967296 % 256,
   n / 16777216 % 256, n / 65536 % 256, n / 256 % 256, n % 256]

/-- SHA-256 padding: `0x80`, zeros to 56 mod 64, 8-byte big-endian bit
length. -/
def shaPad (msg : List Nat) : List Nat :=
  let len := msg.length
  let zeros := (56 + 64 - ((len + 1) % 64)) % 64
  msg ++ [128] ++ List.replicate zeros 0 ++ be64 (len * 8)

/-- 8-hex-digit rendering of a 32-bit word. -/
def hex8 (n : Nat) : List Char :=
  [hexDigit (n / 268435456 % 16), hexDigit (n / 16777216 % 16),
   hexDigit (n / 1048576 % 16), hexDigit (n / 65536 % 16),
   hexDigit (n / 4096 % 16), hexDigit (n / 256 % 16),
   hexDigit (n / 16 % 16), hexDigit (n % 16)]

/-- Hex SHA-256 digest of a byte sequence (`format!("{:x}", hasher.finalize())`). -/
def sha256Hex (msg : List Nat) : String :=
  String.mk ((shaBlocks shaH0 (shaPad msg)).foldr (fun h acc => hex8 h ++ acc) [])

/-- UTF-8 encoding of one character. -/
def utf8Bytes (c : Char) : List Nat :=
  let n := c.toNat
  if n < 128 then [n]
  else if n < 2048 then [192 + n / 64, 128 + n % 64]
  else if n < 65536 then [224 + n / 4096, 128 + n / 64 % 64, 128 + n % 64]
  else [240 + n / 262144, 128 + n / 4096 % 64, 128 + n / 64 % 64, 128 + n % 64]

/-- UTF-8 bytes of a character list. -/
def utf8OfChars : List Char → List Nat
  | [] => []
  | c :: cs => utf8Bytes c ++ utf8OfChars cs

/-- UTF-8 bytes of a string (`str::as_bytes`). -/
def strBytes (s : String) : List Nat :=
  utf8OfChars s.data

/-! ## serde serialization of the IR

Models the `#[derive(Serialize)]` output for every IR type, with the serde
attributes of lib.rs: internally tagged `type` on `Source`/`Expr`, `op` on
`Operator`, untagged `Projection` and `Value`, `skip_serializing_if` on the
optional/emptiable fields that carry it, fields in declaration order, map
entries in iteration order. -/

/-- `Option` field with `skip_serializing_if = "Option::is_none"`. -/
def optField (key : String) (f : α → Json) : Option α → List (String × Json)
  | none => []
  | some a => [(key, f a)]

/-- Serde name of a `UnOp` unit variant. -/
def reprUnOp : UnOp → String
  | .Neg => "Neg"
  | .Not => "Not"

/-- Serde name of a `JoinType` unit variant. -/
def reprJoinType : JoinType → String
  | .Inner => "Inner" | .Left => "Left" | .Right => "Right" | .Full => "Full"
  | .Semi => "Semi" | .Anti => "Anti" | .Cross => "Cross"

/-- Serde name of an `ExplainMode` unit variant. -/
def reprExplainMode : ExplainMode → String
  | .Logical => "Logical" | .Physical => "Physical" | .Cost => "Cost"

/-- Serde name of a `FrameMode` unit variant. -/
def reprFrameMode : FrameMode → String
  | .Rows => "Rows" | .Range => "Range"

/-- `ColumnRef` serialization: optional `table`, then `column`. -/
def columnRefJson (c : ColumnRef) : Json :=
  .obj (optField "table" Json.str c.table ++ [("column", .str c.column)])

/-- `FrameBound` serialization (externally tagged: unit variants as
strings, newtype variants as single-member objects). -/
def frameBoundJson : FrameBound → Json
  | .UnboundedPreceding => .str "UnboundedPreceding"
  | .UnboundedFollowing => .str "UnboundedFollowing"
  | .CurrentRow => .str "CurrentRow"
  | .Preceding n => .obj [("Preceding", .num n)]
  | .Following n => .obj [("Following", .num n)]

/-- `FrameSpec` serialization (`mode`, `start`, `end`). -/
def frameSpecJson (f : FrameSpec) : Json :=
  .obj [("mode", .str (reprFrameMode f.mode)),
        ("start", frameBoundJson f.start),
        ("end", frameBoundJson f.stop)]

mutual

/-- `Value` serialization (untagged): JSON primitives, byte arrays as
number arrays, temporal values as their ISO strings. -/
def valueJson : Value → Json
  | .Null => .null
  | .Bool b => .bool b
  | .Int i => .num i
  | .Float f => .fnum f
  | .String s => .str s
  | .Bytes bs => .arr (bs.map (fun b => .num b))
  | .Date s => .str s
  | .Time s => .str s
  | .Timestamp s => .str s
  | .Array xs => .arr (valueListJson xs)
  | .Object fields => .obj (valueObjJson fields)

/-- Elementwise `Value` serialization. -/
def valueListJson : List Value → List Json
  | [] => []
  | v :: vs => valueJson v :: valueListJson vs

/-- Entrywise `Value` map serialization (iteration order). -/
def valueObjJson : List (String × Value) → List (String × Json)
  | [] => []
  | (k, v) :: rest => (k, valueJson v) :: valueObjJson rest

end

mutual

/-- `Expr` serialization (internally tagged with `type`). -/
def exprJson : Expr → Json
  | .Literal value => .obj [("type", .str "Literal"), ("value", valueJson value)]
  | .Column col => .obj [("type", .str "Column"), ("col", columnRefJson col)]
  | .BinaryOp op left right =>
    .obj [("type", .str "BinaryOp"), ("op", .str (reprBinOp op)),
          ("left", exprJson left), ("right", exprJson right)]
  | .UnaryOp op e =>
    .obj [("type", .str "UnaryOp"), ("op", .str (reprUnOp op)), ("expr", exprJson e)]
  | .FuncCall func args =>
    .obj [("type", .str "FuncCall"), ("func", .str func), ("args", .arr (exprListJson args))]
  | .FieldAccess e field =>
    .obj [("type", .str "FieldAccess"), ("expr", exprJson e), ("field", .str field)]
  | .Index e i =>
    .obj [("type", .str "Index"), ("expr", exprJson e), ("index", exprJson i)]
  | .Array elements =>
    .obj [("type", .str "Array"), ("elements", .arr (exprListJson elements))]
  | .Object fields =>
    .obj [("type", .str "Object"), ("fields", .obj (exprObjJson fields))]
  | .Vector values =>
    .obj [("type", .str "Vector"), ("values", .arr (values.map Json.fnum))]
  | .InRange e start stop inclusive =>
    .obj [("type", .str "InRange"), ("expr", exprJson e), ("start", exprJson start),
          ("end", exprJson stop), ("inclusive", .bool inclusive)]
  | .InSet e set =>
    .obj [("type", .str "InSet"), ("expr", exprJson e), ("set", .arr (exprListJson set))]

/-- Elementwise `Expr` serialization. -/
def exprListJson : List Expr → List Json
  | [] => []
  | e :: es => exprJson e :: exprListJson es

/-- Entrywise `Expr` map serialization (iteration order). -/
def exprObjJson : List (String × Expr) → List (String × Json)
  | [] => []
  | (k, v) :: rest => (k, exprJson v) :: exprObjJson rest

end

/-- `Projection` serialization (untagged): a bare expression directly, an
aliased projection as `{expr, alias}`. -/
def projectionJson : Projection → Json
  | .Expr e => exprJson e
  | .Aliased e aliasName => .obj [("expr", exprJson e), ("alias", .str aliasName)]

/-- `SortKey` serialization; `desc` carries only `#[serde(default)]`, so it
is always written. -/
def sortKeyJson (k : SortKey) : Json :=
  .obj [("expr", exprJson k.expr), ("desc", .bool k.desc)]

/-- `AggCall` serialization; `args` is skipped when empty. -/
def aggCallJson (a : AggCall) : Json :=
  .obj (("func", Json.str a.func) ::
    (if a.args.isEmpty then [] else [("args", Json.arr (exprListJson a.args))]))

/-- `GroupKey` serialization (externally tagged struct variants). -/
def groupKeyJson : GroupKey → Json
  | .Tumbling e interval =>
    .obj [("Tumbling", .obj [("expr", exprJson e), ("interval", .str interval)])]
  | .Hopping e size slide =>
    .obj [("Hopping", .obj [("expr", exprJson e), ("size", .str size), ("slide", .str slide)])]
  | .Session e gap =>
    .obj [("Session", .obj [("expr", exprJson e), ("gap", .str gap)])]

/-- `WindowDef` serialization; `args` skipped when empty, the options
skipped when absent. -/
def windowDefJson (w : WindowDef) : Json :=
  .obj (("func", Json.str w.func) ::
    (if w.args.isEmpty then [] else [("args", Json.arr (exprListJson w.args))]) ++
    optField "partition" (fun p => Json.arr (p.map columnRefJson)) w.partition ++
    optField "order" (fun o => Json.arr (o.map sortKeyJson)) w.order ++
    optField "frame" frameSpecJson w.frame)

mutual

/-- `Source` serialization (internally tagged with `type`). -/
def sourceJson : Source → Json
  | .Table name aliasName =>
    .obj (("type", Json.str "Table") :: ("name", Json.str name) ::
      optField "alias" Json.str aliasName)
  | .Graph graphName aliasName =>
    .obj [("type", .str "Graph"), ("graph_name", .str graphName),
          ("alias", .str aliasName)]
  | .SubPipeline pipeline aliasName =>
    .obj (("type", Json.str "SubPipeline") :: ("pipeline", pipelineJson pipeline) ::
      optField "alias" Json.str aliasName)

/-- `Operator` serialization (internally tagged with `op`). -/
def operatorJson : Operator → Json
  | .Select projections =>
    .obj [("op", .str "Select"), ("projections", .arr (projections.map projectionJson))]
  | .Filter condition =>
    .obj [("op", .str "Filter"), ("condition", exprJson condition)]
  | .Join source onCond joinType =>
    .obj (("op", Json.str "Join") :: ("source", sourceJson source) ::
      ("on", exprJson onCond) ::
      optField "join_type" (fun jt => Json.str (reprJoinType jt)) joinType)
  | .GroupBy keys aggs =>
    .obj [("op", .str "GroupBy"), ("keys", .arr (keys.map columnRefJson)),
          ("aggs", .obj (aggs.map (fun entry => (entry.1, aggCallJson entry.2))))]
  | .Window windows =>
    .obj [("op", .str "Window"),
          ("windows", .obj (windows.map (fun entry => (entry.1, windowDefJson entry.2))))]
  | .Sort keys =>
    .obj [("op", .str "Sort"), ("keys", .arr (keys.map sortKeyJson))]
  | .Take limit =>
    .obj [("op", .str "Take"), ("limit", .num limit)]
  | .Distinct => .obj [("op", .str "Distinct")]
  | .Union all => .obj [("op", .str "Union"), ("all", .bool all)]
  | .Except => .obj [("op", .str "Except")]
  | .Intersect => .obj [("op", .str "Intersect")]
  | .Map mappings =>
    .obj [("op", .str "Map"),
          ("mappings", .obj (mappings.map (fun entry => (entry.1, exprJson entry.2))))]
  | .Expand e aliasName =>
    .obj (("op", Json.str "Expand") :: ("expr", exprJson e) ::
      optField "alias" Json.str aliasName)
  | .Resample interval method onCol =>
    .obj [("op", .str "Resample"), ("interval", .str interval),
          ("method", .str method), ("on", columnRefJson onCol)]
  | .Agg groupKey aggs =>
    .obj [("op", .str "Agg"), ("group_key", groupKeyJson groupKey),
          ("aggs", .obj (aggs.map (fun entry => (entry.1, aggCallJson entry.2))))]
  | .Knn query k index metric =>
    .obj (("op", Json.str "Knn") :: ("query", exprJson query) :: ("k", Json.num k) ::
      optField "index" Json.str index ++ optField "metric" Json.str metric)
  | .Rank by_ => .obj [("op", .str "Rank"), ("by", exprJson by_)]
  | .Neighbors start depth edge =>
    .obj (("op", Json.str "Neighbors") :: ("start", exprJson start) ::
      ("depth", Json.num depth) :: optField "edge" Json.str edge)
  | .TopK k by_ =>
    .obj [("op", .str "TopK"), ("k", .num k), ("by", exprJson by_)]
  | .Sample fraction seed =>
    .obj (("op", Json.str "Sample") :: ("fraction", Json.fnum fraction) ::
      optField "seed" Json.num seed)
  | .Assert condition message =>
    .obj (("op", Json.str "Assert") :: ("condition", exprJson condition) ::
      optField "message" Json.str message)
  | .Explain mode =>
    .obj [("op", .str "Explain"), ("mode", .str (reprExplainMode mode))]

/-- Elementwise `Operator` serialization. -/
def operatorListJson : List Operator → List Json
  | [] => []
  | op :: ops => operatorJson op :: operatorListJson ops

/-- `Pipeline` serialization; `ops` skipped when empty. -/
def pipelineJson : Pipeline → Json
  | .mk source ops =>
    .obj (("source", sourceJson source) ::
      (if ops.isEmpty then [] else [("ops", Json.arr (operatorListJson ops))]))

end

/-- `Pragma` serialization: the options map in iteration order. -/
def pragmaJson (p : Pragma) : Json :=
  .obj [("options", .obj (p.options.map (fun entry => (entry.1, valueJson entry.2))))]

/-- `LetBinding` serialization. -/
def letBindingJson (l : LetBinding) : Json :=
  .obj [("name", .str l.name), ("pipeline", pipelineJson l.pipeline)]

/-- `Program` serialization: optional `pragma`, `lets` skipped when empty,
then `pipeline`. -/
def programJson (p : Program) : Json :=
  .obj (optField "pragma" pragmaJson p.pragma ++
    (if p.lets.isEmpty then [] else [("lets", Json.arr (p.lets.map letBindingJson))]) ++
    [("pipeline", pipelineJson p.pipeline)])

/-- `serde_json::to_string(program)`. -/
def toJsonString (p : Program) : String :=
  jsonRender (programJson p)

/-- `Program::fingerprint` (lib.rs lines 25-33): hex SHA-256 of the
program's JSON serialization. -/
def fingerprint (p : Program) : String :=
  sha256Hex (strBytes (toJsonString p))

/-! ## serde deserialization (the fragment claims C9 needs)

Models `serde_json::from_str` for `Projection` and its component types:
an untagged enum tries its variants in declaration order (`Expr` first,
then `Aliased`); an internally tagged enum requires its tag field (`type`),
dispatches on it, and ignores unknown object keys (serde's default);
struct fields without `#[serde(default)]` are required.

The deserializers recurse on a fuel counter for totality; the public
entry points supply `depth + 1` fuel, which sub-calls can never exhaust
(every recursive call descends into a strict subdocument). -/

/-- First member with the given key. -/
def lookupMember (key : String) : List (String × Json) → Option Json
  | [] => none
  | (k, v) :: rest => if k == key then some v else lookupMember key rest

/-- Object field lookup (`None` on non-objects and absent keys). -/
def getField : Json → String → Option Json
  | .obj members, key => lookupMember key members
  | _, _ => none

/-- Whether an object document has the given key. -/
def hasKey (j : Json) (key : String) : Bool :=
  (getField j key).isSome

mutual

/-- Nesting depth of a document (scalars 0). -/
def jsonDepth : Json → Nat
  | .null => 0
  | .bool _ => 0
  | .num _ => 0
  | .fnum _ => 0
  | .str _ => 0
  | .arr xs => 1 + jsonDepthArr xs
  | .obj members => 1 + jsonDepthObj members

/-- Maximum depth over array elements. -/
def jsonDepthArr : List Json → Nat
  | [] => 0
  | x :: xs => Nat.max (jsonDepth x) (jsonDepthArr xs)

/-- Maximum depth over object member values. -/
def jsonDepthObj : List (String × Json) → Nat
  | [] => 0
  | (_, v) :: rest => Nat.max (jsonDepth v) (jsonDepthObj rest)

end

/-- Deserialize a `String`. -/
def dString : Json → Option String
  | .str s => some s
  | _ => none

/-- Deserialize a `bool`. -/
def dBool : Json → Option Bool
  | .bool b => some b
  | _ => none

/-- Deserialize an `i64`. -/
def dI64 : Json → Option Int
  | .num n => some n
  | _ => none

/-- Deserialize an `f64` (integral JSON numbers are accepted; the modelled
value carries the number's rendering, see `F64`). -/
def dF64 : Json → Option F64
  | .num n => some { repr := intDisplay n }
  | .fnum f => some f
  | _ => none

/-- An `Option<String>` struct field: absent or `null` gives `None`. -/
def dOptStrField (j : Json) (key : String) : Option (Option String) :=
  match getField j key with
  | none => some none
  | some .null => some none
  | some (.str s) => some (some s)
  | some _ => none

/-- Deserialize a `ColumnRef` (optional `table`, required `column`;
unknown keys ignored). -/
def dColumnRef (j : Json) : Option ColumnRef :=
  match j with
  | .obj _ =>
    match dOptStrField j "table", (getField j "column").bind dString with
    | some table, some column => some { table := table, column := column }
    | _, _ => none
  | _ => none

/-- Deserialize a `BinOp` unit variant from its name. -/
def dBinOp (j : Json) : Option BinOp :=
  match j with
  | .str s =>
    if s == "Add" then some .Add else if s == "Sub" then some .Sub
    else if s == "Mul" then some .Mul else if s == "Div" then some .Div
    else if s == "Mod" then some .Mod else if s == "Eq" then some .Eq
    else if s == "Ne" then some .Ne else if s == "Lt" then some .Lt
    else if s == "Le" then some .Le else if s == "Gt" then some .Gt
    else if s == "Ge" then some .Ge else if s == "And" then some .And
    else if s == "Or" then some .Or else if s == "Like" then some .Like
    else if s == "ILike" then some .ILike else none
  | _ => none

/-- Deserialize a `UnOp` unit variant from its name. -/
def dUnOp (j : Json) : Option UnOp :=
  match j with
  | .str s =>
    if s == "Neg" then some .Neg else if s == "Not" then some .Not else none
  | _ => none

/-- A `Vec<u8>` from an array of in-range numbers (the untagged `Bytes`
alternative, tried before `Array`). -/
def allBytes : List Json → Option (List Nat)
  | [] => some []
  | .num n :: rest =>
    if 0 ≤ n ∧ n ≤ 255 then (allBytes rest).map (n.toNat :: ·) else none
  | _ :: _ => none

/-- Sequence an option-valued function over a list (fails if any element
fails). -/
def optMapList (f : α → Option β) : List α → Option (List β)
  | [] => some []
  | x :: xs =>
    match f x, optMapList f xs with
    | some y, some ys => some (y :: ys)
    | _, _ => none

/-- Sequence an option-valued function over map entry values. -/
def optMapSnd (f : α → Option β) :
    List (String × α) → Option (List (String × β))
  | [] => some []
  | (k, x) :: rest =>
    match f x, optMapSnd f rest with
    | some y, some ys => some ((k, y) :: ys)
    | _, _ => none

/-- Deserialize a `Value` (untagged; variants tried in declaration order:
Null, Bool, Int, Float, String, Bytes, Date, Time, Timestamp, Array,
Object — so every JSON string parses as `String`, and an array of bytes
parses as `Bytes` rather than `Array`). -/
def dValueF : Nat → Json → Option Value
  | 0, _ => none
  | _ + 1, .null => some .Null
  | _ + 1, .bool b => some (.Bool b)
  | _ + 1, .num n => some (.Int n)
  | _ + 1, .fnum f => some (.Float f)
  | _ + 1, .str s => some (.String s)
  | fuel + 1, .arr xs =>
    match allBytes xs with
    | some bs => some (.Bytes bs)
    | none => (optMapList (dValueF fuel) xs).map .Array
  | fuel + 1, .obj members => (optMapSnd (dValueF fuel) members).map .Object

/-- Elementwise `f64` deserialization (no recursion into documents). -/
def dF64List (xs : List Json) : Option (List F64) :=
  optMapList dF64 xs

/-- Deserialize an `Expr` (internally tagged with `type`): the tag field is
required and must name a variant; each variant then reads its required
fields from the same object, ignoring unknown keys — in particular extra
`expr`/`alias` keys beside a valid tag are ignored. -/
def dExprF : Nat → Json → Option Expr
  | 0, _ => none
  | fuel + 1, j =>
    match getField j "type" with
    | some (.str tag) =>
      if tag == "Literal" then
        match (getField j "value").bind (dValueF fuel) with
        | some v => some (.Literal v)
        | none => none
      else if tag == "Column" then
        match (getField j "col").bind dColumnRef with
        | some col => some (.Column col)
        | none => none
      else if tag == "BinaryOp" then
        match (getField j "op").bind dBinOp,
            (getField j "left").bind (dExprF fuel),
            (getField j "right").bind (dExprF fuel) with
        | some op, some left, some right => some (.BinaryOp op left right)
        | _, _, _ => none
      else if tag == "UnaryOp" then
        match (getField j "op").bind dUnOp, (getField j "expr").bind (dExprF fuel) with
        | some op, some e => some (.UnaryOp op e)
        | _, _ => none
      else if tag == "FuncCall" then
        match (getField j "func").bind dString, getField j "args" with
        | some func, some (.arr xs) =>
          match optMapList (dExprF fuel) xs with
          | some args => some (.FuncCall func args)
          | none => none
        | _, _ => none
      else if tag == "FieldAccess" then
        match (getField j "expr").bind (dExprF fuel), (getField j "field").bind dString with
        | some e, some field => some (.FieldAccess e field)
        | _, _ => none
      else if tag == "Index" then
        match (getField j "expr").bind (dExprF fuel), (getField j "index").bind (dExprF fuel) with
        | some e, some i => some (.Index e i)
        | _, _ => none
      else if tag == "Array" then
        match getField j "elements" with
        | some (.arr xs) =>
          match optMapList (dExprF fuel) xs with
          | some elements => some (.Array elements)
          | none => none
        | _ => none
      else if tag == "Object" then
        match getField j "fields" with
        | some (.obj members) =>
          match optMapSnd (dExprF fuel) members with
          | some fields => some (.Object fields)
          | none => none
        | _ => none
      else if tag == "Vector" then
        match getField j "values" with
        | some (.arr xs) =>
          match dF64List xs with
          | some values => some (.Vector values)
          | none => none
        | _ => none
      else if tag == "InRange" then
        match (getField j "expr").bind (dExprF fuel),
            (getField j "start").bind (dExprF fuel),
            (getField j "end").bind (dExprF fuel),
            (getField j "inclusive").bind dBool with
        | some e, some start, some stop, some inclusive =>
          some (.InRange e start stop inclusive)
        | _, _, _, _ => none
      else if tag == "InSet" then
        match (getField j "expr").bind (dExprF fuel), getField j "set" with
        | some e, some (.arr xs) =>
          match optMapList (dExprF fuel) xs with
          | some set => some (.InSet e set)
          | none => none
        | _, _ => none
      else none
    | _ => none

/-- Deserialize an `Expr` with always-sufficient fuel. -/
def dExpr (j : Json) : Option Expr :=
  dExprF (jsonDepth j + 1) j

/-- The `Aliased` alternative of the untagged `Projection`: an object with
an `expr` member parsing as an expression and a string `alias` member,
unknown keys ignored. -/
def dAliased (j : Json) : Option (Expr × String) :=
  match j with
  | .obj _ =>
    match (getField j "expr").bind dExpr, (getField j "alias").bind dString with
    | some e, some a => some (e, a)
    | _, _ => none
  | _ => none

/-- Deserialize a `Projection` (untagged): try the `Expr` alternative
first (declaration order), then `Aliased`. -/
def dProjection (j : Json) : Option Projection :=
  match dExpr j with
  | some e => some (.Expr e)
  | none => (dAliased j).map (fun p => .Aliased p.1 p.2)

/-! ## Spec-side schema-tracking rules (spec.md §4.6)

These definitions follow the SPEC's words, independently of the translator
code, for the refinement claim C2: "Select → projection list, where each
position's name is either the alias (for Aliased), the column name (for a
bare column reference), or the synthetic expr_<index>; GroupBy → keys
first in their declared order, then aggregate aliases; Join → left current
schema concatenated with the right source's column list; Filter, Sort,
Take, Distinct → unchanged", starting from the source's column list. -/

/-- Spec rule for one projection's output name. -/
def specProjectionName (idx : Nat) : Projection → String
  | .Aliased _ aliasName => aliasName
  | .Expr (.Column col) => col.column
  | .Expr _ => "expr_" ++ toString idx

/-- Spec rule for a Select's output schema, position by position. -/
def specSelectNamesAux (idx : Nat) : List Projection → List String
  | [] => []
  | p :: ps => specProjectionName idx p :: specSelectNamesAux (idx + 1) ps

/-- The spec's "source's column list", from the schema provider; the spec
gives no rule for non-table sources. -/
def specSourceColumns (sp : SchemaProvider) : Source → Option (List String)
  | .Table name _ =>
    match sp name with
    | .ok schema => some (schema.columns.map (·.name))
    | .error _ => none
  | _ => none

/-- Spec rule for one operator's schema transformation; `none` where §4.6
gives no rule (reserved operators). -/
def specSchemaTransform (sp : SchemaProvider) (op : Operator) (current : List String) :
    Option (List String) :=
  match op with
  | .Select projections => some (specSelectNamesAux 0 projections)
  | .GroupBy keys aggs => some (keys.map (·.column) ++ aggs.map (·.1))
  | .Join source _ _ =>
    match specSourceColumns sp source with
    | some rightColumns => some (current ++ rightColumns)
    | none => none
  | .Filter _ => some current
  | .Sort _ => some current
  | .Take _ => some current
  | .Distinct => some current
  | _ => none

/-- Iterated application of the spec rules over a pipeline's operators. -/
def specSchemaFold (sp : SchemaProvider) : List Operator → List String → Option (List String)
  | [], current => some current
  | op :: ops, current =>
    match specSchemaTransform sp op current with
    | some next => specSchemaFold sp ops next
    | none => none

/-- The spec's final output schema of a pipeline: iterated rules starting
from the source's declared columns. -/
def specPipelineSchema (sp : SchemaProvider) (pipeline : Pipeline) : Option (List String) :=
  match specSourceColumns sp pipeline.source with
  | some initial => specSchemaFold sp pipeline.ops initial
  | none => none

/-! ## Plan observers used by the claims -/

/-- The `names` vector of the plan's root relation. -/
def planRootNames (pl : Plan) : Option (List String) :=
  (pl.relations.head?).map (·.names)

/-- The root relation tree of the plan. -/
def planRootRel (pl : Plan) : Option Rel :=
  (pl.relations.head?).map (·.input)

/-- Projection mask of the leaf `Read` of a relation tree (descending
through every operator's input, the left input for joins). -/
def leafReadProjection : Rel → Option (Option (List Nat))
  | .Read _ _ _ _ projection => some projection
  | .Filter input _ => leafReadProjection input
  | .Project input _ => leafReadProjection input
  | .Sort input _ => leafReadProjection input
  | .Fetch input _ _ => leafReadProjection input
  | .Aggregate input _ _ _ => leafReadProjection input
  | .Join left _ _ _ => leafReadProjection left

/-- Leaf `Read` projection of a plan. -/
def planReadProjection (pl : Plan) : Option (Option (List Nat)) :=
  (planRootRel pl).bind leafReadProjection

mutual

/-- First field index referenced inside an emitted expression (leftmost). -/
def firstSelectionField : SExpression → Option Nat
  | .Selection f => some f.field
  | .Literal _ => none
  | .ScalarFunction _ args => firstSelectionFieldList args

/-- Leftmost field index in an argument list. -/
def firstSelectionFieldList : List SExpression → Option Nat
  | [] => none
  | a :: rest =>
    match firstSelectionField a with
    | some i => some i
    | none => firstSelectionFieldList rest

end

/-- The condition of the topmost `Filter` relation of a plan, when the
root relation is a filter. -/
def planTopFilterCondition (pl : Plan) : Option SExpression :=
  match planRootRel pl with
  | some (.Filter _ condition) => some condition
  | _ => none

/-- Field index of the column reference in the topmost filter condition. -/
def planTopFilterFieldIndex (pl : Plan) : Option Nat :=
  (planTopFilterCondition pl).bind firstSelectionField

mutual

/-- Does every `Selection` in an emitted expression carry the
`RootReference` marker? -/
def allSelectionsRooted : SExpression → Bool
  | .Selection f => f.rootType == .RootRef
  | .Literal _ => true
  | .ScalarFunction _ args => allSelectionsRootedList args

/-- `allSelectionsRooted` over an argument list. -/
def allSelectionsRootedList : List SExpression → Bool
  | [] => true
  | a :: rest => allSelectionsRooted a && allSelectionsRootedList rest

end

/-- Do all aggregate-measure arguments in a relation tree carry
`RootReference` markers on every column reference inside them? -/
def relAggArgsRooted : Rel → Bool
  | .Read _ _ _ _ _ => true
  | .Filter input _ => relAggArgsRooted input
  | .Project input _ => relAggArgsRooted input
  | .Sort input _ => relAggArgsRooted input
  | .Fetch input _ _ => relAggArgsRooted input
  | .Aggregate input _ measures _ =>
    relAggArgsRooted input &&
    (measures.map (fun m => allSelectionsRootedList m.measure.arguments)).all id
  | .Join left right _ _ => relAggArgsRooted left && relAggArgsRooted right

/-- Plan-level check: every column reference inside aggregate-call
arguments carries the `RootReference` marker (the universally quantified
part of claim C5). -/
def planAggArgsRooted (pl : Plan) : Bool :=
  match planRootRel pl with
  | some rel => relAggArgsRooted rel
  | none => true

/-- The claim-C4 reading of "listed preserving their input-schema order":
the members of `idxs` listed in ascending input-schema position. -/
def inputSchemaOrdered (schemaLen : Nat) (idxs : List Nat) : List Nat :=
  (List.range schemaLen).filter (· ∈ idxs)

/-- Is an `Except` an `ok`? -/
def exceptIsOk : Except ε α → Bool
  | .ok _ => true
  | .error _ => false

/-! ## Structural equality up to aggs-map iteration order (claim C6)

Two "structurally identical IR programs built by distinct call sites" hold
equal data, but each `HashMap` instance has its own iteration order.  The
only maps the plan translator reads are the `GroupBy` `aggs` maps, so the
relation below allows exactly those to be permuted and requires everything
else equal. -/

/-- Operators equal up to `GroupBy.aggs` entry order. -/
def opEquivUpToAggOrder : Operator → Operator → Prop
  | .GroupBy keys1 aggs1, .GroupBy keys2 aggs2 =>
    keys1 = keys2 ∧ aggs1.Perm aggs2
  | op1, op2 => op1 = op2

/-- Pipelines equal up to `GroupBy.aggs` entry order. -/
def pipeEquivUpToAggOrder (p1 p2 : Pipeline) : Prop :=
  p1.source = p2.source ∧ List.Forall₂ opEquivUpToAggOrder p1.ops p2.ops

/-- Every `GroupBy` in the operator list has at most one aggregate entry. -/
def aggsSmall (ops : List Operator) : Prop :=
  ∀ op ∈ ops, ∀ keys aggs, op = Operator.GroupBy keys aggs → aggs.length ≤ 1

/-! ## Concrete inputs used by the claims -/

/-- Bare column-reference expression. -/
def col (c : String) : Expr :=
  .Column { table := none, column := c }

/-- The three-column `users` table of the spec's S1/S2 scenarios. -/
def usersSchema : TableSchema :=
  { name := "users",
    columns := [
      { name := "id", dataType := "INTEGER", nullable := false },
      { name := "name", dataType := "VARCHAR", nullable := true },
      { name := "age", dataType := "INTEGER", nullable := true }] }

/-- Mock provider exposing only `users`. -/
def spUsers : SchemaProvider := fun name =>
  if name == "users" then .ok usersSchema
  else .error ("Table " ++ sq ++ name ++ sq ++ " not found")

/-- `from users | select [name, age] | filter age > 25` (claim C1). -/
def progC1 : Program :=
  { pragma := none, lets := [],
    pipeline := .mk (.Table "users" none)
      [.Select [.Expr (col "name"), .Expr (col "age")],
       .Filter (.BinaryOp .Gt (col "age") (.Literal (.Int 25)))] }

/-- `from users`, pure scan (claims C2 witness, C7). -/
def progScan : Program :=
  { pragma := none, lets := [], pipeline := .mk (.Table "users" none) [] }

/-- The plan `translate` produces for `progScan` over `spUsers`. -/
def planScan : Plan :=
  { versionMinor := 53, extensionUris := [], extensions := [],
    relations := [{ input := .Read "users" ["id", "name", "age"]
                      [.I32 2, .String 1, .I32 1] 2 none,
                    names := ["id", "name", "age"] }] }

/-- A two-entry pragma program (claim C3); `cProgC3b` carries the same
options map with the other iteration order, as a re-parse may produce. -/
def cProgC3a : Program :=
  { pragma := some { options := [("alpha", .Int 1), ("beta", .Int 2)] },
    lets := [], pipeline := .mk (.Table "t" none) [] }

/-- `cProgC3a`'s options map in the reversed iteration order. -/
def cProgC3b : Program :=
  { pragma := some { options := [("beta", .Int 2), ("alpha", .Int 1)] },
    lets := [], pipeline := .mk (.Table "t" none) [] }

/-- Three-column table `t` (claim C4). -/
def spAbc : SchemaProvider := fun name =>
  if name == "t" then
    .ok { name := "t",
          columns := [
            { name := "a", dataType := "INTEGER", nullable := true },
            { name := "b", dataType := "INTEGER", nullable := true },
            { name := "c", dataType := "INTEGER", nullable := true }] }
  else .error ("Table " ++ sq ++ name ++ sq ++ " not found")

/-- `from t | group by c { s: sum(a) }`: the grouping key sits at schema
index 2 and the aggregate argument at index 0 (claim C4). -/
def progC4 : Program :=
  { pragma := none, lets := [],
    pipeline := .mk (.Table "t" none)
      [.GroupBy [{ table := none, column := "c" }]
        [("s", { func := "sum", args := [col "a"] })]] }

/-- Two-column table `t2` (claim C5). -/
def spAb : SchemaProvider := fun name =>
  if name == "t2" then
    .ok { name := "t2",
          columns := [
            { name := "a", dataType := "INTEGER", nullable := true },
            { name := "b", dataType := "INTEGER", nullable := true }] }
  else .error ("Table " ++ sq ++ name ++ sq ++ " not found")

/-- `from t2 | group by a, b { x: sum(a + b) }`: the aggregate argument is
a composite expression containing column references (claim C5). -/
def progC5 : Program :=
  { pragma := none, lets := [],
    pipeline := .mk (.Table "t2" none)
      [.GroupBy [{ table := none, column := "a" }, { table := none, column := "b" }]
        [("x", { func := "sum", args := [.BinaryOp .Add (col "a") (col "b")] })]] }

/-- The `orders` table of the spec's S4 scenario (claim C6). -/
def spOrders : SchemaProvider := fun name =>
  if name == "orders" then
    .ok { name := "orders",
          columns := [
            { name := "id", dataType := "INTEGER", nullable := true },
            { name := "city", dataType := "VARCHAR", nullable := true },
            { name := "amount", dataType := "INTEGER", nullable := true }] }
  else .error ("Table " ++ sq ++ name ++ sq ++ " not found")

/-- The two aggregate entries of the C6 programs. -/
def aggTotal : String × AggCall := ("total", { func := "count", args := [] })

/-- Second aggregate entry of the C6 programs. -/
def aggCnt : String × AggCall := ("cnt", { func := "sum", args := [col "amount"] })

/-- `from orders | group by city { total: count(), cnt: sum(amount) }`,
aggs map iterating `total` before `cnt`. -/
def progC6a : Program :=
  { pragma := none, lets := [],
    pipeline := .mk (.Table "orders" none)
      [.GroupBy [{ table := none, column := "city" }] [aggTotal, aggCnt]] }

/-- The same program with the aggs map iterating `cnt` before `total`. -/
def progC6b : Program :=
  { pragma := none, lets := [],
    pipeline := .mk (.Table "orders" none)
      [.GroupBy [{ table := none, column := "city" }] [aggCnt, aggTotal]] }

/-- Single-aggregate group-by program (C6 witness). -/
def progC6w : Program :=
  { pragma := none, lets := [],
    pipeline := .mk (.Table "orders" none)
      [.GroupBy [{ table := none, column := "city" }] [aggTotal]] }

/-- `from users | filter age > 25` — registers one scalar function
(C7 witness). -/
def progC7w : Program :=
  { pragma := none, lets := [],
    pipeline := .mk (.Table "users" none)
      [.Filter (.BinaryOp .Gt (col "age") (.Literal (.Int 25)))] }

/-- A program whose filter condition is an unsupported expression variant
(`FieldAccess`); the SQL lowering renders it as `NULL` (claim C8). -/
def progC8 : Program :=
  { pragma := none, lets := [],
    pipeline := .mk (.Table "t" none)
      [.Filter (.FieldAccess (col "a") "f")] }

/-- A `runSql` probe that records the SQL string it was handed. -/
def probeRunSql : String → Except ExecutionError QueryResult :=
  fun sql => .ok { columns := [sql], rowCount := 0 }

/-- A projection document that carries BOTH `expr` and `alias` keys at the
top level and is simultaneously a valid tagged expression
(`{"type":"UnaryOp","op":"Neg","expr":{..},"alias":"x"}`, claim C9). -/
def jC9 : Json :=
  .obj [("type", .str "UnaryOp"), ("op", .str "Neg"),
        ("expr", .obj [("type", .str "Column"),
                       ("col", .obj [("column", .str "a")])]),
        ("alias", .str "x")]

/-- The wildcard projection produced by lowering `select [*]`. -/
def wildcardProjection : Projection :=
  .Expr (col "*")

/-- `from users | select [*]` (claim C10 witness). -/
def progW10 : Program :=
  { pragma := none, lets := [],
    pipeline := .mk (.Table "users" none) [.Select [wildcardProjection]] }

/-- Registry invariant: the anchors in insertion order are exactly
`1, 2, …, n` (dense, no gaps), `next_anchor` is one past the last assigned
anchor, and each signature appears at most once. -/
def RegInv (r : FunctionRegistry) : Prop :=
  r.functions.map Prod.snd = List.range' 1 r.functions.length
  ∧ r.nextAnchor = r.functions.length + 1
  ∧ (r.functions.map Prod.fst).Nodup

/-- Operators the SQL lowering rejects: `Semi`/`Anti` joins, joins from
non-`Table` sources, and every reserved operator (the `_ => Err(..)` arm of
`build_sql_query`). -/
def unsupportedSqlOp : Operator → Bool
  | .Select _ => false
  | .Filter _ => false
  | .Join source _ joinType =>
    (match joinType with
     | some .Semi => true
     | some .Anti => true
     | _ => false) ||
    (match source with
     | .Table _ _ => false
     | _ => true)
  | .GroupBy _ _ => false
  | .Sort _ => false
  | .Take _ => false
  | .Distinct => false
  | _ => true

/-- Expression variants `expr_to_sql` does not handle (its `_ => "NULL"`
arm). -/
def unsupportedSqlExpr : Expr → Bool
  | .Column _ => false
  | .Literal _ => false
  | .BinaryOp _ _ _ => false
  | .FuncCall _ _ => false
  | _ => true

/-- A canonical tagged column-expression document (C9 witness). -/
def jExprW : Json :=
  .obj [("type", .str "Column"), ("col", .obj [("column", .str "a")])]

/-- A canonical aliased-projection document: `expr` + `alias`, no `type`
tag (C9 witness). -/
def jAliasedW : Json :=
  .obj [("expr", jExprW), ("alias", .str "n2")]

/-- `from users | join(Semi) orders on id == user_id` (C8 witness). -/
def progSemi : Program :=
  { pragma := none, lets := [],
    pipeline := .mk (.Table "users" none)
      [.Join (.Table "orders" none)
        (.BinaryOp .Eq (col "id") (col "user_id")) (some .Semi)] }

mutual

/-- Does every field reference inside an expression carry `root_type: None`
(i.e. NO `RootReference` marker)?  Dual of `allSelectionsRooted`. -/
def noSelectionsRooted : SExpression → Bool
  | .Selection f => f.rootType == .NoRoot
  | .Literal _ => true
  | .ScalarFunction _ args => noSelectionsRootedList args

/-- `noSelectionsRooted` over an argument list. -/
def noSelectionsRootedList : List SExpression → Bool
  | [] => true
  | a :: rest => noSelectionsRooted a && noSelectionsRootedList rest

end

/-- A two-column Read relation used as the GroupBy input in the C5 witness. -/
def relC5in : Rel :=
  .Read "t" ["a", "b"] [.I64 1, .I64 1] 2 none

/-- Grouping keys for the C5 witness: the single bare column `a`. -/
def keysC5 : List ColumnRef :=
  [{ table := none, column := "a" }]

/-- Aggregates for the C5 witness: `sum` applied to the bare column `b` and
to the composite expression `-a` (a column nested inside a `UnaryOp`). -/
def aggsC5 : List (String × AggCall) :=
  [("s", { func := "sum", args := [col "b", .UnaryOp .Neg (col "a")] })]

/-- The bare-column references among a list of aggregate-call arguments, in
order (the only arguments `collect_arg_idx` inspects). -/
def columnArgs : List Expr → List ColumnRef
  | [] => []
  | .Column c :: rest => c :: columnArgs rest
  | _ :: rest => columnArgs rest

/-- All bare-column aggregate arguments of an aggs map, in iteration
order. -/
def aggsColumnArgs : List (String × AggCall) → List ColumnRef
  | [] => []
  | (_, aggCall) :: rest => columnArgs aggCall.args ++ aggsColumnArgs rest

/-- The result of translating `progC4`'s pipeline (used to witness C4); the
error branch is unreachable. -/
def c4pair : Rel × FunctionRegistry :=
  match translatePipeline spAbc progC4.pipeline FunctionRegistry.new with
  | .ok p => p
  | .error _ => (.Read "" [] [] 2 none, FunctionRegistry.new)

/-- The result of the C5 witness translation; the error branch is
unreachable. -/
def c5pair : Rel × FunctionRegistry :=
  match translateGroupby relC5in keysC5 aggsC5 ["a", "b"] FunctionRegistry.new with
  | .ok p => p
  | .error _ => (relC5in, FunctionRegistry.new)

/-- The plan produced for `progC7w` (a filter pipeline interning one
function signature); the error branch is unreachable. -/
def planC7 : Plan :=
  match translate spUsers progC7w with
  | .ok p => p
  | .error _ => { versionMinor := 0, extensionUris := [], extensions := [], relations := [] }

/-! ## Theorems -/

/-- C1: the code resolves a column reference in an operator that FOLLOWS a
`Select` against the source's column list, not against the Select's output
schema: in `from users(id,name,age) | select [name, age] | filter age > 25`
the emitted filter references field index 2 (position of `age` in the
source schema), while the preceding Select's output schema (per the
schema-tracking rules) is `[name, age]`, which places `age` at index 1.
`translate_pipeline` never updates `current_schema` between operators (the
`TODO` at translator.rs:351), contradicting the claim's "in particular"
clause and the translator's own doc comment. -/
theorem c1_filter_after_select_resolves_against_source_schema :
    Except.map planTopFilterFieldIndex (translate spUsers progC1) = .ok (some 2)
    ∧ specSelectNamesAux 0 [.Expr (col "name"), .Expr (col "age")] = ["name", "age"]
    ∧ position (fun n => n == "age") ["name", "age"] = some 1
    ∧ (2 : Nat) ≠ 1 :=
  ⟨rfl, rfl, rfl, by decide⟩

/-- C3: the fingerprint is NOT stable across a serialize/parse round trip
when a map has two or more entries.  `cProgC3a` and `cProgC3b` hold the
SAME two-entry `Pragma.options` map (a permutation of the same entries —
exactly what re-parsing the serialized program may produce, since a fresh
`HashMap`'s iteration order is unrelated to the document order), yet their
hex SHA-256 fingerprints differ, because `serde_json::to_string` writes
map entries in iteration order. -/
theorem c3_fingerprint_changes_across_map_reorder :
    cProgC3a.pragma = some { options := [("alpha", .Int 1), ("beta", .Int 2)] }
    ∧ cProgC3b.pragma = some { options := [("beta", .Int 2), ("alpha", .Int 1)] }
    ∧ List.Perm [("alpha", Value.Int 1), ("beta", Value.Int 2)]
        [("beta", Value.Int 2), ("alpha", Value.Int 1)]
    ∧ fingerprint cProgC3a ≠ fingerprint cProgC3b :=
  ⟨rfl, rfl, List.Perm.swap _ _ _, by decide⟩

/-- C4 counterexample: in `from t(a,b,c) | group by c { s: sum(a) }` the
emitted `Read` carries the struct-mask items `[2, 0]` (first-use order:
grouping keys, then aggregate arguments), NOT the input-schema order
`[0, 2]` the claim states. -/
theorem c4_counterexample_mask_not_in_input_schema_order :
    Except.map planReadProjection (translate spAbc progC4) = .ok (some (some [2, 0]))
    ∧ inputSchemaOrdered 3 [2, 0] = [0, 2]
    ∧ ([2, 0] : List Nat) ≠ [0, 2] :=
  ⟨rfl, by decide, by decide⟩

/-- C5 counterexample: in `from t2(a,b) | group by a, b { x: sum(a + b) }`
the translation succeeds and the aggregate measure's argument contains
column references emitted WITHOUT the `RootReference` marker (composite
arguments go through plain `translate_expr`), refuting "every column
reference … inside aggregate-call arguments is emitted with an explicit
RootReference root-type marker". -/
theorem c5_counterexample_nested_agg_arg_not_rooted :
    Except.map planAggArgsRooted (translate spAb progC5) = .ok false :=
  rfl

/-- C6 counterexample: two structurally identical programs (same `GroupBy`
aggs map, different iteration orders — the relation `pipeEquivUpToAggOrder`
certifies they are permutations of the same entries) translate to plans
with DIFFERENT root-names vectors, hence different serialized bytes. -/
theorem c6_counterexample_agg_order_changes_plan :
    Except.map planRootNames (translate spOrders progC6a) = .ok (some ["city", "total", "cnt"])
    ∧ Except.map planRootNames (translate spOrders progC6b) = .ok (some ["city", "cnt", "total"])
    ∧ pipeEquivUpToAggOrder progC6a.pipeline progC6b.pipeline
    ∧ (["city", "total", "cnt"] : List String) ≠ ["city", "cnt", "total"] := by
  refine ⟨rfl, rfl, ⟨rfl, ?_⟩, by decide⟩
  exact List.Forall₂.cons ⟨rfl, List.Perm.swap _ _ _⟩ List.Forall₂.nil

/-- C7 counterexample: a translation that interns no function signature
(`from users`, pure scan) emits a plan with NO extension URI at all, not
"exactly one extension URI with anchor 1". -/
theorem c7_counterexample_scan_plan_has_no_extension_uri :
    Except.map (fun pl => pl.extensionUris.length) (translate spUsers progScan) = .ok 0
    ∧ (0 : Nat) ≠ 1 :=
  ⟨rfl, by decide⟩

/-- C8 counterexample: a pipeline whose filter condition is an unsupported
expression variant (`FieldAccess`) does NOT make the SQL lowering return an
error: it lowers to `SELECT * FROM t WHERE NULL` (the `_ => "NULL"` arm of
`expr_to_sql`) and the query IS handed to the engine. -/
theorem c8_counterexample_unsupported_expr_lowers_to_null_sql :
    irToSql progC8 = .ok "SELECT * FROM t WHERE NULL"
    ∧ executeIr probeRunSql progC8 =
        .ok { columns := ["SELECT * FROM t WHERE NULL"], rowCount := 0 } :=
  ⟨rfl, rfl⟩

/-- An object without a `type` member cannot parse as an (internally
tagged) expression. -/
theorem dExpr_obj_no_type {members : List (String × Json)}
    (h : lookupMember "type" members = none) : dExpr (.obj members) = none := by
  simp only [dExpr, dExprF, getField, h]

/-- C9 (amended): projection deserialization is structural and
Expr-preferring — any document parsing as a tagged expression gives
`Projection::Expr` (even with extra `expr`/`alias` keys), a document that
does not parse as an expression gives the `Aliased` parse, an object
without a `type` tag never parses as an expression, and an object with
`expr` and `alias` members (and no `type` tag) deserializes as
`Projection::Aliased`. -/
theorem c9_projection_discrimination_expr_first :
    (∀ (j : Json) (e : Expr), dExpr j = some e → dProjection j = some (.Expr e))
    ∧ (∀ j : Json, dExpr j = none →
        dProjection j = (dAliased j).map (fun p => Projection.Aliased p.1 p.2))
    ∧ (∀ members : List (String × Json), lookupMember "type" members = none →
        dExpr (.obj members) = none)
    ∧ (∀ (members : List (String × Json)) (je : Json) (e : Expr) (s : String),
        lookupMember "type" members = none →
        lookupMember "expr" members = some je →
        dExpr je = some e →
        lookupMember "alias" members = some (.str s) →
        dProjection (.obj members) = some (.Aliased e s)) := by
  refine ⟨?_, ?_, ?_, ?_⟩
  · intro j e h
    simp only [dProjection, h]
  · intro j h
    simp only [dProjection, h]
  · intro members h
    exact dExpr_obj_no_type h
  · intro members je e s htype hexpr hje halias
    simp only [dProjection, dExpr_obj_no_type htype, dAliased, getField,
      hexpr, halias, Option.some_bind, hje, dString, Option.map_some]
    rfl

/-- C9 witness: the canonical `{expr, alias}` document parses as `Aliased`
and the canonical tagged column document parses as `Expr`. -/
theorem c9_witness :
    dProjection jAliasedW = some (.Aliased (.Column { table := none, column := "a" }) "n2")
    ∧ dProjection jExprW = some (.Expr (.Column { table := none, column := "a" })) := by
  obtain ⟨h1, _, _, h4⟩ := c9_projection_discrimination_expr_first
  exact ⟨h4 [("expr", jExprW), ("alias", .str "n2")] jExprW _ "n2" rfl rfl rfl rfl,
         h1 jExprW _ rfl⟩

/-- One projection name agrees between the code's rule and the spec's
rule (the match arms are the same partition, listed in different orders). -/
theorem projectionName_eq_spec (idx : Nat) (p : Projection) :
    projectionName idx p = specProjectionName idx p := by
  cases p with
  | Expr e => cases e <;> rfl
  | Aliased e a => rfl

/-- Select output names agree positionwise between code and spec. -/
theorem selectNamesAux_eq_spec (ps : List Projection) :
    ∀ idx, selectNamesAux idx ps = specSelectNamesAux idx ps := by
  induction ps with
  | nil => intro idx; rfl
  | cons p ps ih =>
    intro idx
    simp only [selectNamesAux, specSelectNamesAux, projectionName_eq_spec, ih]

/-- A successful source-column lookup agrees with the spec's "source's
column list". -/
theorem getOutputNames_spec {sp : SchemaProvider} {src : Source} {cols : List String}
    (h : getOutputNames sp src = .ok cols) : specSourceColumns sp src = some cols := by
  cases src with
  | Table name al =>
    simp only [getOutputNames] at h
    simp only [specSourceColumns]
    cases hs : sp name with
    | error e => rw [hs] at h; exact absurd h (by simp)
    | ok schema => rw [hs] at h; cases h; rfl
  | Graph g a => exact absurd h (by simp [getOutputNames])
  | SubPipeline p a => exact absurd h (by simp [getOutputNames])

/-- A successful code-side schema step agrees with the spec's rule. -/
theorem schemaStep_spec {sp : SchemaProvider} :
    ∀ {op : Operator} {cur ns : List String}, schemaStep sp op cur = .ok ns →
      specSchemaTransform sp op cur = some ns
  | .Select projections, cur, ns, h => by
    simp only [schemaStep] at h
    cases h
    simp only [specSchemaTransform, selectNames, selectNamesAux_eq_spec]
  | .GroupBy keys aggs, cur, ns, h => by
    simp only [schemaStep] at h
    cases h
    rfl
  | .Join source onCond joinType, cur, ns, h => by
    simp only [schemaStep] at h
    simp only [specSchemaTransform]
    cases hs : getOutputNames sp source with
    | error e => rw [hs] at h; cases h
    | ok rightSchema =>
      rw [hs] at h
      cases h
      rw [getOutputNames_spec hs]
  | .Filter _, cur, ns, h => by simp only [schemaStep] at h; cases h; rfl
  | .Sort _, cur, ns, h => by simp only [schemaStep] at h; cases h; rfl
  | .Take _, cur, ns, h => by simp only [schemaStep] at h; cases h; rfl
  | .Distinct, cur, ns, h => by simp only [schemaStep] at h; cases h; rfl
  | .Window _, cur, ns, h => by simp only [schemaStep] at h; cases h
  | .Union _, cur, ns, h => by simp only [schemaStep] at h; cases h
  | .Except, cur, ns, h => by simp only [schemaStep] at h; cases h
  | .Intersect, cur, ns, h => by simp only [schemaStep] at h; cases h
  | .Map _, cur, ns, h => by simp only [schemaStep] at h; cases h
  | .Expand _ _, cur, ns, h => by simp only [schemaStep] at h; cases h
  | .Resample _ _ _, cur, ns, h => by simp only [schemaStep] at h; cases h
  | .Agg _ _, cur, ns, h => by simp only [schemaStep] at h; cases h
  | .Knn _ _ _ _, cur, ns, h => by simp only [schemaStep] at h; cases h
  | .Rank _, cur, ns, h => by simp only [schemaStep] at h; cases h
  | .Neighbors _ _ _, cur, ns, h => by simp only [schemaStep] at h; cases h
  | .TopK _ _, cur, ns, h => by simp only [schemaStep] at h; cases h
  | .Sample _ _, cur, ns, h => by simp only [schemaStep] at h; cases h
  | .Assert _ _, cur, ns, h => by simp only [schemaStep] at h; cases h
  | .Explain _, cur, ns, h => by simp only [schemaStep] at h; cases h

/-- A successful code-side schema trace agrees with the spec's iterated
rules. -/
theorem pipelineOutputNamesAux_spec {sp : SchemaProvider} {ops : List Operator} :
    ∀ {cur ns : List String}, pipelineOutputNamesAux sp ops cur = .ok ns →
      specSchemaFold sp ops cur = some ns := by
  induction ops with
  | nil =>
    intro cur ns h
    simp only [pipelineOutputNamesAux] at h
    cases h
    rfl
  | cons op ops ih =>
    intro cur ns h
    simp only [pipelineOutputNamesAux] at h
    cases hs : schemaStep sp op cur with
    | error e => rw [hs] at h; exact absurd h (by simp)
    | ok next =>
      rw [hs] at h
      simp only [specSchemaFold, schemaStep_spec hs]
      exact ih h

/-- C2: for every program the translator accepts, the `names` vector of the
plan's root relation equals the schema obtained by iterated application of
the spec's schema-tracking rules (§4.6), starting from the source's column
list: Select replaces the schema with one name per projection (alias /
column name / `expr_<index>`), GroupBy with keys then aggregate aliases
(in aggs-map iteration order), Join appends the right source's columns,
and Filter, Sort, Take, Distinct leave it unchanged. -/
theorem c2_root_names_equal_spec_schema (sp : SchemaProvider) (p : Program)
    (pl : Plan) (h : translate sp p = .ok pl) :
    planRootNames pl = specPipelineSchema sp p.pipeline := by
  unfold translate at h
  cases h1 : translatePipeline sp p.pipeline FunctionRegistry.new with
  | error e => rw [h1] at h; cases h
  | ok pair =>
    rw [h1] at h
    cases h2 : getPipelineOutputNames sp p.pipeline with
    | error e => rw [h2] at h; cases h
    | ok names =>
      rw [h2] at h
      cases h
      have hspec : specPipelineSchema sp p.pipeline = some names := by
        unfold getPipelineOutputNames at h2
        cases h3 : getOutputNames sp p.pipeline.source with
        | error e => rw [h3] at h2; cases h2
        | ok initial =>
          rw [h3] at h2
          simp only [specPipelineSchema, getOutputNames_spec h3]
          exact pipelineOutputNamesAux_spec h2
      rw [hspec]
      rfl

/-- C2 witness: the scan `from users` translates to `planScan`, whose root
names equal the spec schema. -/
theorem c2_witness : planRootNames planScan = specPipelineSchema spUsers progScan.pipeline :=
  c2_root_names_equal_spec_schema spUsers progScan planScan rfl

/-- `position` misses exactly the absent names. -/
theorem position_eq_none_of_not_mem {a : String} :
    ∀ {l : List String}, a ∉ l → position (fun n => n == a) l = none := by
  intro l
  induction l with
  | nil => intro _; rfl
  | cons x xs ih =>
    intro h
    have hx : ¬(x == a) = true := by
      simp only [beq_iff_eq]
      intro hxa
      exact h (hxa ▸ List.mem_cons_self x xs)
    simp only [position]
    rw [if_neg hx, ih (fun hm => h (List.mem_cons_of_mem x hm))]
    rfl

/-- Resolving the wildcard column in a schema without a literal `*` column
fails with the `Translation` error naming `*` and the available columns. -/
theorem translateColumnRefWithRoot_star {schema : List String} (h : "*" ∉ schema)
    (useRoot : Bool) :
    translateColumnRefWithRoot { table := none, column := "*" } schema useRoot =
      .error (.Translation ("Column " ++ sq ++ "*" ++ sq ++
        " not found in schema. Available columns: " ++ debugStrList schema)) := by
  simp only [translateColumnRefWithRoot, position_eq_none_of_not_mem h]

/-- A projection list containing the wildcard cannot translate in a schema
without a `*` column. -/
theorem mapMS_wildcard_fails {schema : List String} (hstar : "*" ∉ schema) :
    ∀ {projs : List Projection}, wildcardProjection ∈ projs →
      ∀ reg, ∃ e, mapMS (translateProjection schema) projs reg = .error e := by
  intro projs
  induction projs with
  | nil => intro h; cases h
  | cons p ps ih =>
    intro hmem reg
    rcases List.mem_cons.mp hmem with hp | hp
    · subst hp
      refine ⟨.Translation ("Column " ++ sq ++ "*" ++ sq ++
        " not found in schema. Available columns: " ++ debugStrList schema), ?_⟩
      simp only [mapMS, wildcardProjection, translateProjection, col, translateExpr,
        translateColumnRef, translateColumnRefWithRoot_star hstar]
    · cases hf : translateProjection schema p reg with
      | error e => exact ⟨e, by simp only [mapMS, hf]⟩
      | ok pair =>
        obtain ⟨e, he⟩ := ih hp pair.2
        refine ⟨e, ?_⟩
        simp only [mapMS, hf, he]

/-- The operator fold fails whenever the operator list contains a `Select`
with a wildcard projection and the (never-updated) current schema has no
`*` column. -/
theorem translateOpsFold_wildcard_fails (sp : SchemaProvider) {schema : List String}
    (hstar : "*" ∉ schema) :
    ∀ {ops : List Operator},
      (∃ projs, Operator.Select projs ∈ ops ∧ wildcardProjection ∈ projs) →
      ∀ rel reg, ∃ e, translateOpsFold sp ops rel schema reg = .error e := by
  intro ops
  induction ops with
  | nil =>
    rintro ⟨projs, hmem, _⟩
    cases hmem
  | cons op rest ih =>
    rintro ⟨projs, hsel, hwild⟩ rel reg
    rcases List.mem_cons.mp hsel with hop | hop
    · subst hop
      obtain ⟨e, he⟩ := mapMS_wildcard_fails hstar hwild reg
      refine ⟨e, ?_⟩
      simp only [translateOpsFold, translateOperator, translateSelect, he]
    · cases hf : translateOperator sp op rel schema reg with
      | error e => exact ⟨e, by simp only [translateOpsFold, hf]⟩
      | ok pair =>
        obtain ⟨e, he⟩ := ih ⟨projs, hop, hwild⟩ pair.1 pair.2
        refine ⟨e, ?_⟩
        simp only [translateOpsFold, hf]
        exact he

/-- `List.getD` with a string default yields a member or the default. -/
theorem getD_mem_or_default : ∀ (l : List String) (idx : Nat),
    l.getD idx "" ∈ l ∨ l.getD idx "" = ""
  | [], _ => Or.inr rfl
  | x :: _, 0 => Or.inl (List.mem_cons_self x _)
  | _ :: xs, idx + 1 =>
    match getD_mem_or_default xs idx with
    | Or.inl h => Or.inl (List.mem_cons_of_mem _ h)
    | Or.inr h => Or.inr h

/-- The schema context `translate_pipeline` computes is drawn from the
source columns (projected or not), so it cannot contain `*` if the source
columns do not. -/
theorem startSchemaFrom_no_star {sp : SchemaProvider} {pipeline : Pipeline}
    {cols schema : List String} {pf : Option (List Nat)}
    (hsrc : getOutputNames sp pipeline.source = .ok cols) (hstar : "*" ∉ cols)
    (h : startSchemaFrom sp pipeline pf = .ok schema) : "*" ∉ schema := by
  cases pf with
  | none =>
    simp only [startSchemaFrom] at h
    rw [hsrc] at h
    cases h
    exact hstar
  | some fields =>
    simp only [startSchemaFrom] at h
    rw [hsrc] at h
    cases h
    intro hmem
    obtain ⟨idx, _, hval⟩ := List.mem_map.mp hmem
    rcases getD_mem_or_default cols idx with hin | hdef
    · exact hstar (hval ▸ hin)
    · rw [hval] at hdef
      exact absurd hdef (by decide)

/-- C10: a pipeline containing a `Select` with the wildcard projection
(bare column reference `*`, no table) never translates to a plan when the
source schema has no column literally named `*`; the wildcard reference
resolves through `translate_column_ref_with_root`, which fails with the
`TranslateError::Translation` message naming column `*` and the available
columns; and the SQL lowering (alone) renders that same projection as `*`. -/
theorem c10_wildcard_select_fails_plan_translation (sp : SchemaProvider)
    (p : Program) (cols : List String)
    (hsrc : getOutputNames sp p.pipeline.source = .ok cols)
    (hstar : "*" ∉ cols)
    (hsel : ∃ projs, Operator.Select projs ∈ p.pipeline.ops ∧ wildcardProjection ∈ projs) :
    exceptIsOk (translate sp p) = false
    ∧ (∀ schema : List String, "*" ∉ schema →
        translateColumnRefWithRoot { table := none, column := "*" } schema false =
          .error (.Translation ("Column " ++ sq ++ "*" ++ sq ++
            " not found in schema. Available columns: " ++ debugStrList schema)))
    ∧ sqlProjectionItem wildcardProjection = "*" := by
  refine ⟨?_, fun schema hs => translateColumnRefWithRoot_star hs false, rfl⟩
  unfold translate
  cases h1 : translatePipeline sp p.pipeline FunctionRegistry.new with
  | error e => rfl
  | ok pair =>
    exfalso
    cases h2 : pipelineProjectionFields sp p.pipeline with
    | error e => simp only [translatePipeline, h2] at h1; cases h1
    | ok pf =>
      cases h3 : translateSourceWithProjection sp p.pipeline.source pf with
      | error e => simp only [translatePipeline, h2, h3] at h1; cases h1
      | ok rel0 =>
        cases h4 : startSchemaFrom sp p.pipeline pf with
        | error e => simp only [translatePipeline, h2, h3, h4] at h1; cases h1
        | ok schema =>
          obtain ⟨e, he⟩ := translateOpsFold_wildcard_fails sp
            (startSchemaFrom_no_star hsrc hstar h4) hsel rel0 FunctionRegistry.new
          simp only [translatePipeline, h2, h3, h4, he] at h1
          cases h1

/-- C10 witness: `from users | select [*]` over the `users` table. -/
theorem c10_witness :
    exceptIsOk (translate spUsers progW10) = false
    ∧ translateColumnRefWithRoot { table := none, column := "*" }
        ["id", "name", "age"] false =
        .error (.Translation ("Column " ++ sq ++ "*" ++ sq ++
          " not found in schema. Available columns: " ++
          debugStrList ["id", "name", "age"]))
    ∧ sqlProjectionItem wildcardProjection = "*" := by
  obtain ⟨h1, h2, h3⟩ := c10_wildcard_select_fails_plan_translation spUsers progW10
    ["id", "name", "age"] rfl (by decide)
    ⟨[wildcardProjection], List.Mem.head _, List.Mem.head _⟩
  exact ⟨h1, h2 ["id", "name", "age"] (by decide), h3⟩

/-- The empty registry satisfies the invariant. -/
theorem regInv_new : RegInv FunctionRegistry.new :=
  ⟨rfl, rfl, List.nodup_nil⟩

/-- A failed map lookup means the key is absent. -/
theorem lookupFn_none_not_mem {s : String} :
    ∀ {l : List (String × Nat)}, lookupFn s l = none → s ∉ l.map Prod.fst := by
  intro l
  induction l with
  | nil =>
    intro _ hmem
    cases hmem
  | cons kv rest ih =>
    intro h hmem
    obtain ⟨k, v⟩ := kv
    simp only [lookupFn] at h
    by_cases hk : (k == s) = true
    · rw [if_pos hk] at h; cases h
    · rw [if_neg hk] at h
      simp only [List.map_cons] at hmem
      rcases List.mem_cons.mp hmem with h1 | h2
      · exact hk (by simp [beq_iff_eq, h1])
      · exact ih h h2

/-- `register` preserves the registry invariant. -/
theorem register_inv {r : FunctionRegistry} (hr : RegInv r) (s : String) :
    RegInv (r.register s).2 := by
  obtain ⟨h1, h2, h3⟩ := hr
  cases hl : lookupFn s r.functions with
  | some a =>
    simp only [FunctionRegistry.register, hl]
    exact ⟨h1, h2, h3⟩
  | none =>
    simp only [FunctionRegistry.register, hl]
    refine ⟨?_, ?_, ?_⟩
    · show (r.functions ++ [(s, r.nextAnchor)]).map Prod.snd =
        List.range' 1 ((r.functions ++ [(s, r.nextAnchor)]).length)
      rw [List.map_append, h1, List.length_append]
      simp only [List.map_cons, List.map_nil, List.length_cons, List.length_nil]
      rw [List.range'_concat, h2]
      congr 2
      omega
    · show ({ functions := r.functions ++ [(s, r.nextAnchor)],
              nextAnchor := r.nextAnchor + 1 } : FunctionRegistry).nextAnchor =
        (r.functions ++ [(s, r.nextAnchor)]).length + 1
      simp only [List.length_append, List.length_cons, List.length_nil]
      omega
    · show ((r.functions ++ [(s, r.nextAnchor)]).map Prod.fst).Nodup
      rw [List.map_append]
      refine (List.nodup_append).mpr ⟨h3, ?_, ?_⟩
      · simp
      · intro a ha hb
        simp only [List.map_cons, List.map_nil, List.mem_cons, List.not_mem_nil,
          or_false] at hb
        exact lookupFn_none_not_mem hl (hb ▸ ha)

/-- The per-expression translation preserves the registry invariant. -/
theorem translateExpr_inv {schema : List String} :
    ∀ (e : Expr) {reg : FunctionRegistry} {x : SExpression} {reg' : FunctionRegistry},
      translateExpr schema e reg = .ok (x, reg') → RegInv reg → RegInv reg'
  | .Literal v, reg, x, reg', h, hr => by
    simp only [translateExpr] at h
    cases hv : translateLiteral v with
    | error e => simp only [hv] at h; cases h
    | ok lit => simp only [hv] at h; cases h; exact hr
  | .Column c, reg, x, reg', h, hr => by
    simp only [translateExpr] at h
    cases hv : translateColumnRef c schema with
    | error e => simp only [hv] at h; cases h
    | ok sel => simp only [hv] at h; cases h; exact hr
  | .BinaryOp op l r, reg, x, reg', h, hr => by
    simp only [translateExpr] at h
    cases h1 : translateExpr schema l reg with
    | error e => simp only [h1] at h; cases h
    | ok p1 =>
      obtain ⟨e1, reg1⟩ := p1
      simp only [h1] at h
      cases h2 : translateExpr schema r reg1 with
      | error e => simp only [h2] at h; cases h
      | ok p2 =>
        obtain ⟨e2, reg2⟩ := p2
        simp only [h2] at h
        have hr2 : RegInv reg2 := translateExpr_inv r h2 (translateExpr_inv l h1 hr)
        cases hb : binOpBaseName op with
        | none => simp only [hb] at h; cases h
        | some base =>
          simp only [hb] at h
          cases hreg : reg2.register (base ++ ":i32_i32") with
          | mk anchor reg3 =>
            simp only [hreg] at h
            cases h
            have := register_inv hr2 (base ++ ":i32_i32")
            rw [hreg] at this
            exact this
  | .UnaryOp op inner, reg, x, reg', h, hr => by
    simp only [translateExpr] at h
    cases h1 : translateExpr schema inner reg with
    | error e => simp only [h1] at h; cases h
    | ok p1 =>
      obtain ⟨e1, reg1⟩ := p1
      simp only [h1] at h
      have hr1 : RegInv reg1 := translateExpr_inv inner h1 hr
      cases op with
      | Not =>
        cases hreg : reg1.register "not:bool" with
        | mk anchor reg2 =>
          simp only [hreg] at h
          cases h
          have := register_inv hr1 "not:bool"
          rw [hreg] at this
          exact this
      | Neg =>
        cases hreg : reg1.register "negate:i32" with
        | mk anchor reg2 =>
          simp only [hreg] at h
          cases h
          have := register_inv hr1 "negate:i32"
          rw [hreg] at this
          exact this
  | .FuncCall _ _, _, _, _, h, _ => by cases h
  | .FieldAccess _ _, _, _, _, h, _ => by cases h
  | .Index _ _, _, _, _, h, _ => by cases h
  | .Array _, _, _, _, h, _ => by cases h
  | .Object _, _, _, _, h, _ => by cases h
  | .Vector _, _, _, _, h, _ => by cases h
  | .InRange _ _ _ _, _, _, _, h, _ => by cases h
  | .InSet _ _, _, _, _, h, _ => by cases h

/-- `mapMS` preserves any property each step preserves. -/
theorem mapMS_inv {α β : Type}
    {f : α → FunctionRegistry → Except TranslateError (β × FunctionRegistry)}
    (hf : ∀ (a : α) {reg : FunctionRegistry} {x : β} {reg' : FunctionRegistry},
      f a reg = .ok (x, reg') → RegInv reg → RegInv reg') :
    ∀ {l : List α} {reg : FunctionRegistry} {ys : List β} {reg' : FunctionRegistry},
      mapMS f l reg = .ok (ys, reg') → RegInv reg → RegInv reg' := by
  intro l
  induction l with
  | nil =>
    intro reg ys reg' h hr
    simp only [mapMS] at h
    cases h
    exact hr
  | cons a as ih =>
    intro reg ys reg' h hr
    simp only [mapMS] at h
    cases h1 : f a reg with
    | error e => simp only [h1] at h; cases h
    | ok p1 =>
      obtain ⟨b, reg1⟩ := p1
      simp only [h1] at h
      cases h2 : mapMS f as reg1 with
      | error e => simp only [h2] at h; cases h
      | ok p2 =>
        obtain ⟨bs, reg2⟩ := p2
        simp only [h2] at h
        cases h
        exact ih h2 (hf a h1 hr)

/-- Aggregate-measure translation preserves the registry invariant. -/
theorem translateAggregateWithRoot_inv {aggCall : AggCall} {schema : List String}
    {reg : FunctionRegistry} {m : Measure} {reg' : FunctionRegistry}
    (h : translateAggregateWithRoot aggCall schema reg = .ok (m, reg'))
    (hr : RegInv reg) : RegInv reg' := by
  simp only [translateAggregateWithRoot] at h
  cases h1 : mapMS (fun argExpr reg1 =>
      match argExpr with
      | .Column c =>
        match translateColumnRefWithRoot c schema true with
        | .error e => .error e
        | .ok sel => .ok (sel, reg1)
      | other => translateExpr schema other reg1) aggCall.args reg with
  | error e => simp only [h1] at h; cases h
  | ok p1 =>
    obtain ⟨arguments, reg1⟩ := p1
    simp only [h1] at h
    have hr1 : RegInv reg1 := by
      refine mapMS_inv ?_ h1 hr
      intro a reg2 x2 reg2' ha hr2
      cases a with
      | Column c =>
        cases hc : translateColumnRefWithRoot c schema true with
        | error e => simp only [hc] at ha; cases ha
        | ok sel => simp only [hc] at ha; cases ha; exact hr2
      | Literal v => exact translateExpr_inv _ ha hr2
      | BinaryOp op l r => exact translateExpr_inv _ ha hr2
      | UnaryOp op e0 => exact translateExpr_inv _ ha hr2
      | FuncCall f as0 => exact translateExpr_inv _ ha hr2
      | FieldAccess e0 f => exact translateExpr_inv _ ha hr2
      | Index e0 i0 => exact translateExpr_inv _ ha hr2
      | Array es => exact translateExpr_inv _ ha hr2
      | Object fs => exact translateExpr_inv _ ha hr2
      | Vector vs => exact translateExpr_inv _ ha hr2
      | InRange e0 s0 t0 i0 => exact translateExpr_inv _ ha hr2
      | InSet e0 s0 => exact translateExpr_inv _ ha hr2
    cases hreg : reg1.register (aggCall.func ++ ":i32") with
    | mk anchor reg2 =>
      simp only [hreg] at h
      cases h
      have := register_inv hr1 (aggCall.func ++ ":i32")
      rw [hreg] at this
      exact this

/-- Operator translation preserves the registry invariant. -/
theorem translateOperator_inv {sp : SchemaProvider} :
    ∀ {op : Operator} {input : Rel} {schema : List String} {reg : FunctionRegistry}
      {rel : Rel} {reg' : FunctionRegistry},
      translateOperator sp op input schema reg = .ok (rel, reg') →
      RegInv reg → RegInv reg'
  | .Filter c, input, schema, reg, rel, reg', h, hr => by
    simp only [translateOperator, translateFilter] at h
    cases h1 : translateExpr schema c reg with
    | error e => simp only [h1] at h; cases h
    | ok p1 =>
      obtain ⟨e1, reg1⟩ := p1
      simp only [h1] at h
      cases h
      exact translateExpr_inv c h1 hr
  | .Select projections, input, schema, reg, rel, reg', h, hr => by
    simp only [translateOperator, translateSelect] at h
    cases h1 : mapMS (translateProjection schema) projections reg with
    | error e => simp only [h1] at h; cases h
    | ok p1 =>
      obtain ⟨es, reg1⟩ := p1
      simp only [h1] at h
      cases h
      refine mapMS_inv ?_ h1 hr
      intro a reg2 x2 reg2' ha hr2
      cases a with
      | Expr e0 => exact translateExpr_inv _ ha hr2
      | Aliased e0 al => exact translateExpr_inv _ ha hr2
  | .Sort keys, input, schema, reg, rel, reg', h, hr => by
    simp only [translateOperator, translateSort] at h
    cases h1 : mapMS (fun (key : SortKey) reg1 =>
        match translateExpr schema key.expr reg1 with
        | .error e => .error e
        | .ok (e, reg2) =>
          .ok ((e, if key.desc then (4 : Int) else 1), reg2)) keys reg with
    | error e => simp only [h1] at h; cases h
    | ok p1 =>
      obtain ⟨sorts, reg1⟩ := p1
      simp only [h1] at h
      cases h
      refine mapMS_inv ?_ h1 hr
      intro a reg2 x2 reg2' ha hr2
      cases h2 : translateExpr schema a.expr reg2 with
      | error e => simp only [h2] at ha; cases ha
      | ok p2 =>
        obtain ⟨e2, reg3⟩ := p2
        simp only [h2] at ha
        cases ha
        exact translateExpr_inv _ h2 hr2
  | .Take limit, input, schema, reg, rel, reg', h, hr => by
    simp only [translateOperator] at h
    cases h
    exact hr
  | .Distinct, input, schema, reg, rel, reg', h, hr => by
    simp only [translateOperator] at h
    cases h
    exact hr
  | .GroupBy keys aggs, input, schema, reg, rel, reg', h, hr => by
    simp only [translateOperator, translateGroupby] at h
    cases h1 : mapME (groupbyKeyExpr schema) keys with
    | error e => simp only [h1] at h; cases h
    | ok gexprs =>
      simp only [h1] at h
      cases h2 : mapMS (fun (entry : String × AggCall) reg1 =>
          translateAggregateWithRoot entry.2 schema reg1) aggs reg with
      | error e => simp only [h2] at h; cases h
      | ok p2 =>
        obtain ⟨measures, reg1⟩ := p2
        simp only [h2] at h
        cases h
        refine mapMS_inv ?_ h2 hr
        intro a reg2 x2 reg2' ha hr2
        exact translateAggregateWithRoot_inv ha hr2
  | .Join source onCond joinType, input, schema, reg, rel, reg', h, hr => by
    simp only [translateOperator, translateJoin] at h
    cases h1 : translateSourceWithProjection sp source none with
    | error e => simp only [h1] at h; cases h
    | ok rightRel =>
      simp only [h1] at h
      cases h2 : getOutputNames sp source with
      | error e => simp only [h2] at h; cases h
      | ok rightSchema =>
        simp only [h2] at h
        cases h3 : translateExpr (schema ++ rightSchema) onCond reg with
        | error e => simp only [h3] at h; cases h
        | ok p3 =>
          obtain ⟨joinExpr, reg1⟩ := p3
          simp only [h3] at h
          cases h4 : joinTypeCodeOf joinType with
          | error e => simp only [h4] at h; cases h
          | ok code =>
            simp only [h4] at h
            cases h
            exact translateExpr_inv _ h3 hr
  | .Window _, _, _, _, _, _, h, _ => by cases h
  | .Union _, _, _, _, _, _, h, _ => by cases h
  | .Except, _, _, _, _, _, h, _ => by cases h
  | .Intersect, _, _, _, _, _, h, _ => by cases h
  | .Map _, _, _, _, _, _, h, _ => by cases h
  | .Expand _ _, _, _, _, _, _, h, _ => by cases h
  | .Resample _ _ _, _, _, _, _, _, h, _ => by cases h
  | .Agg _ _, _, _, _, _, _, h, _ => by cases h
  | .Knn _ _ _ _, _, _, _, _, _, h, _ => by cases h
  | .Rank _, _, _, _, _, _, h, _ => by cases h
  | .Neighbors _ _ _, _, _, _, _, _, h, _ => by cases h
  | .TopK _ _, _, _, _, _, _, h, _ => by cases h
  | .Sample _ _, _, _, _, _, _, h, _ => by cases h
  | .Assert _ _, _, _, _, _, _, h, _ => by cases h
  | .Explain _, _, _, _, _, _, h, _ => by cases h

/-- The operator fold preserves the registry invariant. -/
theorem translateOpsFold_inv {sp : SchemaProvider} :
    ∀ {ops : List Operator} {rel0 : Rel} {schema : List String}
      {reg : FunctionRegistry} {rel : Rel} {reg' : FunctionRegistry},
      translateOpsFold sp ops rel0 schema reg = .ok (rel, reg') →
      RegInv reg → RegInv reg' := by
  intro ops
  induction ops with
  | nil =>
    intro rel0 schema reg rel reg' h hr
    simp only [translateOpsFold] at h
    cases h
    exact hr
  | cons op rest ih =>
    intro rel0 schema reg rel reg' h hr
    simp only [translateOpsFold] at h
    cases h1 : translateOperator sp op rel0 schema reg with
    | error e => simp only [h1] at h; cases h
    | ok p1 =>
      obtain ⟨rel1, reg1⟩ := p1
      simp only [h1] at h
      exact ih h (translateOperator_inv h1 hr)

/-- Pipeline translation preserves the registry invariant. -/
theorem translatePipeline_inv {sp : SchemaProvider} {pipeline : Pipeline}
    {reg : FunctionRegistry} {rel : Rel} {reg' : FunctionRegistry}
    (h : translatePipeline sp pipeline reg = .ok (rel, reg'))
    (hr : RegInv reg) : RegInv reg' := by
  simp only [translatePipeline] at h
  cases h1 : pipelineProjectionFields sp pipeline with
  | error e => simp only [h1] at h; cases h
  | ok pf =>
    simp only [h1] at h
    cases h2 : translateSourceWithProjection sp pipeline.source pf with
    | error e => simp only [h2] at h; cases h
    | ok rel0 =>
      simp only [h2] at h
      cases h3 : startSchemaFrom sp pipeline pf with
      | error e => simp only [h3] at h; cases h
      | ok schema =>
        simp only [h3] at h
        exact translateOpsFold_inv h hr

/-- Inserting below every element is a cons. -/
theorem insertByAnchor_head {x : String × Nat} :
    ∀ {ys : List (String × Nat)}, (∀ y ∈ ys, x.2 ≤ y.2) → insertByAnchor x ys = x :: ys
  | [], _ => rfl
  | y :: ys, h => by
    simp only [insertByAnchor]
    rw [if_pos (h y (List.mem_cons_self y ys))]

/-- Sorting an already anchor-sorted list is the identity. -/
theorem sortByAnchor_eq_self :
    ∀ {l : List (String × Nat)}, l.Pairwise (fun a b => a.2 ≤ b.2) → sortByAnchor l = l
  | [], _ => rfl
  | x :: xs, h => by
    obtain ⟨hx, hxs⟩ := List.pairwise_cons.mp h
    simp only [sortByAnchor]
    rw [sortByAnchor_eq_self hxs, insertByAnchor_head hx]

/-- Under the invariant, `get_functions` returns the insertion order (it is
already ascending by anchor). -/
theorem getFunctions_of_inv {r : FunctionRegistry} (hr : RegInv r) :
    r.getFunctions = r.functions := by
  have hlt : (r.functions.map Prod.snd).Pairwise (· < ·) := by
    rw [hr.1]
    exact List.pairwise_lt_range' 1 _
  have hp : r.functions.Pairwise (fun a b => a.2 ≤ b.2) :=
    (List.pairwise_map.mp hlt).imp (fun hab => Nat.le_of_lt hab)
  exact sortByAnchor_eq_self hp

/-- Under the invariant, `generate_extensions` yields declarations with dense
anchors `1..n`, uri_ref 1 and distinct names, plus the single URI exactly when
a function was interned. -/
theorem generateExtensions_spec {r : FunctionRegistry} (hr : RegInv r) :
    (generateExtensions r).2.map ExtensionFunction.functionAnchor =
      List.range' 1 (generateExtensions r).2.length ∧
    (∀ ef ∈ (generateExtensions r).2, ef.extensionUriReference = 1) ∧
    ((generateExtensions r).2.map ExtensionFunction.name).Nodup ∧
    (generateExtensions r).1 =
      (if (generateExtensions r).2.isEmpty then []
       else [{ extensionUriAnchor := 1, uri := substraitExtensionUri }]) := by
  obtain ⟨ha, hn, hd⟩ := hr
  have hget := getFunctions_of_inv ⟨ha, hn, hd⟩
  simp only [generateExtensions, hget]
  cases hfl : r.functions with
  | nil => simp
  | cons q qs =>
    rw [hfl] at ha hd
    simp only [List.isEmpty_cons, Bool.false_eq_true, if_false]
    refine ⟨?_, ?_, ?_, ?_⟩
    · rw [List.map_map, List.length_map]
      exact ha
    · intro ef hef
      obtain ⟨e, _, hfe⟩ := List.mem_map.mp hef
      rw [← hfe]
    · rw [List.map_map]
      exact hd
    · simp

/-- C7 (amended): within one translation each distinct function signature gets
exactly one anchor — re-registering a known signature returns its anchor and
leaves the registry unchanged, a fresh signature receives the next dense
anchor (`1..n`, no gaps) — and a successful translation declares one
extension-function per interned signature with `uri_ref` 1, dense anchors and
distinct names, plus exactly one extension URI (anchor 1, the arithmetic
yaml) when at least one signature was interned and none otherwise. -/
theorem c7_registry_interning_and_plan_extensions
    (sp : SchemaProvider) (program : Program) (reg : FunctionRegistry)
    (s : String) (hr : RegInv reg) {plan : Plan}
    (h : translate sp program = .ok plan) :
    (∀ a, lookupFn s reg.functions = some a → reg.register s = (a, reg)) ∧
    (lookupFn s reg.functions = none →
      (reg.register s).1 = reg.functions.length + 1 ∧
      ((reg.register s).2.functions.map Prod.snd =
        List.range' 1 (reg.functions.length + 1))) ∧
    (plan.extensions.map ExtensionFunction.functionAnchor =
        List.range' 1 plan.extensions.length ∧
      (∀ ef ∈ plan.extensions, ef.extensionUriReference = 1) ∧
      (plan.extensions.map ExtensionFunction.name).Nodup ∧
      plan.extensionUris =
        (if plan.extensions.isEmpty then []
         else [{ extensionUriAnchor := 1, uri := substraitExtensionUri }])) := by
  refine ⟨?_, ?_, ?_⟩
  · intro a ha
    simp only [FunctionRegistry.register, ha]
  · intro hnone
    refine ⟨?_, ?_⟩
    · simp only [FunctionRegistry.register, hnone]
      exact hr.2.1
    · simp only [FunctionRegistry.register, hnone, List.map_append,
        List.map_cons, List.map_nil]
      rw [hr.1, List.range'_concat, hr.2.1]
      congr 2
      omega
  · simp only [translate] at h
    cases h1 : translatePipeline sp program.pipeline FunctionRegistry.new with
    | error e => simp only [h1] at h; cases h
    | ok p =>
      obtain ⟨rootRel, reg1⟩ := p
      simp only [h1] at h
      cases h2 : getPipelineOutputNames sp program.pipeline with
      | error e => simp only [h2] at h; cases h
      | ok names =>
        simp only [h2] at h
        have hreg1 : RegInv reg1 := translatePipeline_inv h1 regInv_new
        cases hge : generateExtensions reg1 with
        | mk uris exts =>
          simp only [hge] at h
          cases h
          have hspec := generateExtensions_spec hreg1
          rw [hge] at hspec
          exact hspec

/-- Witness for C7: the fresh registry satisfies the invariant, `progC7w`
translates successfully to `planC7`, and the instantiated conclusion holds. -/
theorem c7_witness :
    RegInv FunctionRegistry.new ∧
    translate spUsers progC7w = Except.ok planC7 ∧
    ((∀ a, lookupFn "gt:i32_i32" FunctionRegistry.new.functions = some a →
        FunctionRegistry.new.register "gt:i32_i32" = (a, FunctionRegistry.new)) ∧
     (lookupFn "gt:i32_i32" FunctionRegistry.new.functions = none →
        (FunctionRegistry.new.register "gt:i32_i32").1 =
          FunctionRegistry.new.functions.length + 1 ∧
        ((FunctionRegistry.new.register "gt:i32_i32").2.functions.map Prod.snd =
          List.range' 1 (FunctionRegistry.new.functions.length + 1))) ∧
     (planC7.extensions.map ExtensionFunction.functionAnchor =
        List.range' 1 planC7.extensions.length ∧
      (∀ ef ∈ planC7.extensions, ef.extensionUriReference = 1) ∧
      (planC7.extensions.map ExtensionFunction.name).Nodup ∧
      planC7.extensionUris =
        (if planC7.extensions.isEmpty then []
         else [{ extensionUriAnchor := 1, uri := substraitExtensionUri }]))) :=
  ⟨regInv_new, rfl,
   c7_registry_interning_and_plan_extensions spUsers progC7w FunctionRegistry.new
     "gt:i32_i32" regInv_new rfl⟩

/-- A literal translation carries no field references at all. -/
theorem translateLiteral_noRoot {v : Value} {x : SExpression}
    (h : translateLiteral v = .ok x) : noSelectionsRooted x = true := by
  cases v <;> simp only [translateLiteral] at h <;> cases h <;> rfl

/-- A successful root-marked column resolution yields exactly the
`RootReference`-marked field reference at the resolved index. -/
theorem translateColumnRefWithRoot_ok {c : ColumnRef} {schema : List String}
    {x : SExpression} (h : translateColumnRefWithRoot c schema true = .ok x) :
    ∃ i, position (fun name => name == c.column) schema = some i ∧
      x = .Selection { field := i, rootType := .RootRef } := by
  simp only [translateColumnRefWithRoot] at h
  cases hpos : position (fun name => name == c.column) schema with
  | none => simp only [hpos] at h; cases h
  | some i => simp only [hpos] at h; cases h; exact ⟨i, rfl, rfl⟩

/-- `translate_column_ref` (no root) yields an unmarked field reference. -/
theorem translateColumnRef_noRoot {c : ColumnRef} {schema : List String}
    {x : SExpression} (h : translateColumnRef c schema = .ok x) :
    noSelectionsRooted x = true := by
  simp only [translateColumnRef, translateColumnRefWithRoot] at h
  cases hpos : position (fun name => name == c.column) schema with
  | none => simp only [hpos] at h; cases h
  | some i => simp only [hpos] at h; cases h; rfl

/-- Everything `translate_expr` emits is free of `RootReference` markers:
nested column references are resolved with `use_root_reference = false`. -/
theorem translateExpr_noRoot {schema : List String} :
    ∀ (e : Expr) {reg : FunctionRegistry} {x : SExpression} {reg' : FunctionRegistry},
      translateExpr schema e reg = .ok (x, reg') → noSelectionsRooted x = true
  | .Literal v, reg, x, reg', h => by
    simp only [translateExpr] at h
    cases hv : translateLiteral v with
    | error e => simp only [hv] at h; cases h
    | ok lit => simp only [hv] at h; cases h; exact translateLiteral_noRoot hv
  | .Column c, reg, x, reg', h => by
    simp only [translateExpr] at h
    cases hv : translateColumnRef c schema with
    | error e => simp only [hv] at h; cases h
    | ok sel => simp only [hv] at h; cases h; exact translateColumnRef_noRoot hv
  | .BinaryOp op l r, reg, x, reg', h => by
    simp only [translateExpr] at h
    cases h1 : translateExpr schema l reg with
    | error e => simp only [h1] at h; cases h
    | ok p1 =>
      obtain ⟨e1, reg1⟩ := p1
      simp only [h1] at h
      cases h2 : translateExpr schema r reg1 with
      | error e => simp only [h2] at h; cases h
      | ok p2 =>
        obtain ⟨e2, reg2⟩ := p2
        simp only [h2] at h
        cases hb : binOpBaseName op with
        | none => simp only [hb] at h; cases h
        | some base =>
          simp only [hb] at h
          cases hreg : reg2.register (base ++ ":i32_i32") with
          | mk anchor reg3 =>
            simp only [hreg] at h
            cases h
            have ih1 := translateExpr_noRoot l h1
            have ih2 := translateExpr_noRoot r h2
            simp only [noSelectionsRooted, noSelectionsRootedList, ih1, ih2,
              Bool.and_true, Bool.true_and]
  | .UnaryOp op inner, reg, x, reg', h => by
    simp only [translateExpr] at h
    cases h1 : translateExpr schema inner reg with
    | error e => simp only [h1] at h; cases h
    | ok p1 =>
      obtain ⟨e1, reg1⟩ := p1
      simp only [h1] at h
      cases op with
      | Not =>
        cases hreg : reg1.register "not:bool" with
        | mk anchor reg2 =>
          simp only [hreg] at h
          cases h
          have ih1 := translateExpr_noRoot inner h1
          simp only [noSelectionsRooted, noSelectionsRootedList, ih1, Bool.and_true]
      | Neg =>
        cases hreg : reg1.register "negate:i32" with
        | mk anchor reg2 =>
          simp only [hreg] at h
          cases h
          have ih1 := translateExpr_noRoot inner h1
          simp only [noSelectionsRooted, noSelectionsRootedList, ih1, Bool.and_true]
  | .FuncCall _ _, _, _, _, h => by cases h
  | .FieldAccess _ _, _, _, _, h => by cases h
  | .Index _ _, _, _, _, h => by cases h
  | .Array _, _, _, _, h => by cases h
  | .Object _, _, _, _, h => by cases h
  | .Vector _, _, _, _, h => by cases h
  | .InRange _ _ _ _, _, _, _, h => by cases h
  | .InSet _ _, _, _, _, h => by cases h

/-- Pointwise characterization of the registry-free collect. -/
theorem mapME_pointwise {α β : Type} {f : α → Except TranslateError β} :
    ∀ {l : List α} {bs : List β}, mapME f l = .ok bs →
      bs.length = l.length ∧
      ∀ (k : Nat) (a : α), l.get? k = some a →
        ∃ b, f a = .ok b ∧ bs.get? k = some b := by
  intro l
  induction l with
  | nil =>
    intro bs h
    simp only [mapME] at h
    cases h
    exact ⟨rfl, fun k a ha => by cases ha⟩
  | cons a as ih =>
    intro bs h
    simp only [mapME] at h
    cases h1 : f a with
    | error e => simp only [h1] at h; cases h
    | ok b =>
      simp only [h1] at h
      cases h2 : mapME f as with
      | error e => simp only [h2] at h; cases h
      | ok bs1 =>
        simp only [h2] at h
        cases h
        obtain ⟨hlen, hpt⟩ := ih h2
        refine ⟨by simp only [List.length_cons, hlen], ?_⟩
        intro k a0 ha
        cases k with
        | zero => cases ha; exact ⟨b, h1, rfl⟩
        | succ k => exact hpt k a0 ha

/-- Pointwise characterization of the state-threading collect. -/
theorem mapMS_pointwise {α β : Type}
    {f : α → FunctionRegistry → Except TranslateError (β × FunctionRegistry)} :
    ∀ {l : List α} {reg : FunctionRegistry} {bs : List β} {reg' : FunctionRegistry},
      mapMS f l reg = .ok (bs, reg') →
      bs.length = l.length ∧
      ∀ (k : Nat) (a : α), l.get? k = some a →
        ∃ regk b regk1, f a regk = .ok (b, regk1) ∧ bs.get? k = some b := by
  intro l
  induction l with
  | nil =>
    intro reg bs reg' h
    simp only [mapMS] at h
    cases h
    exact ⟨rfl, fun k a ha => by cases ha⟩
  | cons a as ih =>
    intro reg bs reg' h
    simp only [mapMS] at h
    cases h1 : f a reg with
    | error e => simp only [h1] at h; cases h
    | ok p1 =>
      obtain ⟨b, reg1⟩ := p1
      simp only [h1] at h
      cases h2 : mapMS f as reg1 with
      | error e => simp only [h2] at h; cases h
      | ok p2 =>
        obtain ⟨bs1, reg2⟩ := p2
        simp only [h2] at h
        cases h
        obtain ⟨hlen, hpt⟩ := ih h2
        refine ⟨by simp only [List.length_cons, hlen], ?_⟩
        intro k a0 ha
        cases k with
        | zero => cases ha; exact ⟨reg, b, reg1, h1, rfl⟩
        | succ k => exact hpt k a0 ha

/-- A successful grouping-key translation yields the `RootReference`-marked
reference at the resolved index. -/
theorem groupbyKeyExpr_ok {schema : List String} {key : ColumnRef} {g : SExpression}
    (h : groupbyKeyExpr schema key = .ok g) :
    ∃ i, position (fun name => name == key.column) schema = some i ∧
      g = .Selection { field := i, rootType := .RootRef } := by
  simp only [groupbyKeyExpr] at h
  cases hpos : position (fun name => name == key.column) schema with
  | none => simp only [hpos] at h; cases h
  | some i => simp only [hpos] at h; cases h; exact ⟨i, rfl, rfl⟩

/-- Pointwise characterization of a translated measure: bare-column
arguments become root-marked field references; all other arguments are
emitted without `RootReference` markers anywhere inside. -/
theorem translateAggregateWithRoot_args {aggCall : AggCall} {schema : List String}
    {reg : FunctionRegistry} {m : Measure} {reg' : FunctionRegistry}
    (h : translateAggregateWithRoot aggCall schema reg = .ok (m, reg')) :
    m.measure.arguments.length = aggCall.args.length ∧
    (∀ (j : Nat) (c : ColumnRef), aggCall.args.get? j = some (.Column c) →
      ∃ i, position (fun name => name == c.column) schema = some i ∧
        m.measure.arguments.get? j =
          some (.Selection { field := i, rootType := .RootRef })) ∧
    (∀ (j : Nat) (e : Expr), aggCall.args.get? j = some e →
      (∀ c, e ≠ .Column c) →
      ∃ arg, m.measure.arguments.get? j = some arg ∧
        noSelectionsRooted arg = true) := by
  simp only [translateAggregateWithRoot] at h
  cases h1 : mapMS (fun argExpr reg1 =>
      match argExpr with
      | .Column c =>
        match translateColumnRefWithRoot c schema true with
        | .error e => .error e
        | .ok sel => .ok (sel, reg1)
      | other => translateExpr schema other reg1) aggCall.args reg with
  | error e => simp only [h1] at h; cases h
  | ok p1 =>
    obtain ⟨arguments, reg1⟩ := p1
    simp only [h1] at h
    cases hreg : reg1.register (aggCall.func ++ ":i32") with
    | mk anchor reg2 =>
      simp only [hreg] at h
      cases h
      obtain ⟨hlen, hpt⟩ := mapMS_pointwise h1
      refine ⟨hlen, ?_, ?_⟩
      · intro j c hc
        obtain ⟨regk, b, regk1, hf, hget⟩ := hpt j (.Column c) hc
        have hf2 : (match translateColumnRefWithRoot c schema true with
            | .error e => (Except.error e :
                Except TranslateError (SExpression × FunctionRegistry))
            | .ok sel => .ok (sel, regk)) = .ok (b, regk1) := hf
        cases hcr : translateColumnRefWithRoot c schema true with
        | error e => simp only [hcr] at hf2; cases hf2
        | ok sel =>
          simp only [hcr] at hf2
          cases hf2
          obtain ⟨i, hpos, hsel⟩ := translateColumnRefWithRoot_ok hcr
          refine ⟨i, hpos, ?_⟩
          show arguments.get? j = some (.Selection { field := i, rootType := .RootRef })
          rw [hget, hsel]
      · intro j e he hne
        obtain ⟨regk, b, regk1, hf, hget⟩ := hpt j e he
        refine ⟨b, hget, ?_⟩
        cases e with
        | Column c => exact absurd rfl (hne c)
        | Literal v => exact translateExpr_noRoot _ hf
        | BinaryOp op l r => exact translateExpr_noRoot _ hf
        | UnaryOp op inner => exact translateExpr_noRoot _ hf
        | FuncCall f0 as0 => exact translateExpr_noRoot _ hf
        | FieldAccess e0 f0 => exact translateExpr_noRoot _ hf
        | Index e0 i0 => exact translateExpr_noRoot _ hf
        | Array es => exact translateExpr_noRoot _ hf
        | Object fs => exact translateExpr_noRoot _ hf
        | Vector vs => exact translateExpr_noRoot _ hf
        | InRange a0 b0 c0 d0 => exact translateExpr_noRoot _ hf
        | InSet a0 b0 => exact translateExpr_noRoot _ hf

/-- C5 (amended): a translated GroupBy puts the grouping expressions into
the deprecated inner `grouping_expressions` field of the single `Grouping`
(the relation-level list stays empty), every grouping key and every
bare-column aggregate argument is emitted with an explicit `RootReference`
marker, and every composite aggregate argument is emitted with NO
`RootReference` marker anywhere inside it; `translate_distinct` likewise
groups on root-marked references of every column with the relation-level
list empty. -/
theorem c5_rootref_direct_refs_only
    (input : Rel) (keys : List ColumnRef) (aggs : List (String × AggCall))
    (schema : List String) (reg : FunctionRegistry)
    {rel : Rel} {reg' : FunctionRegistry}
    (h : translateGroupby input keys aggs schema reg = .ok (rel, reg')) :
    (∃ gexprs measures,
      rel = .Aggregate input
        [{ groupingExpressions := gexprs, expressionReferences := [] }] measures [] ∧
      gexprs.length = keys.length ∧
      (∀ (k : Nat) (key : ColumnRef), keys.get? k = some key →
        ∃ i, position (fun name => name == key.column) schema = some i ∧
          gexprs.get? k = some (.Selection { field := i, rootType := .RootRef })) ∧
      measures.length = aggs.length ∧
      (∀ (k : Nat) (entry : String × AggCall), aggs.get? k = some entry →
        ∃ m, measures.get? k = some m ∧
          m.measure.arguments.length = entry.2.args.length ∧
          (∀ (j : Nat) (c : ColumnRef), entry.2.args.get? j = some (.Column c) →
            ∃ i, position (fun name => name == c.column) schema = some i ∧
              m.measure.arguments.get? j =
                some (.Selection { field := i, rootType := .RootRef })) ∧
          (∀ (j : Nat) (e : Expr), entry.2.args.get? j = some e →
            (∀ c, e ≠ Expr.Column c) →
            ∃ arg, m.measure.arguments.get? j = some arg ∧
              noSelectionsRooted arg = true))) ∧
    (translateDistinct input schema = .Aggregate input
        [{ groupingExpressions := distinctGroupingExprs schema,
           expressionReferences := [] }] [] [] ∧
      ∀ g ∈ distinctGroupingExprs schema,
        ∃ i, g = .Selection { field := i, rootType := .RootRef }) := by
  refine ⟨?_, rfl, ?_⟩
  · simp only [translateGroupby] at h
    cases h1 : mapME (groupbyKeyExpr schema) keys with
    | error e => simp only [h1] at h; cases h
    | ok gexprs =>
      simp only [h1] at h
      cases h2 : mapMS (fun (entry : String × AggCall) reg1 =>
          translateAggregateWithRoot entry.2 schema reg1) aggs reg with
      | error e => simp only [h2] at h; cases h
      | ok p2 =>
        obtain ⟨measures, reg1⟩ := p2
        simp only [h2] at h
        cases h
        obtain ⟨hklen, hkpt⟩ := mapME_pointwise h1
        obtain ⟨hmlen, hmpt⟩ := mapMS_pointwise h2
        refine ⟨gexprs, measures, rfl, hklen, ?_, hmlen, ?_⟩
        · intro k key hk
          obtain ⟨g, hg, hget⟩ := hkpt k key hk
          obtain ⟨i, hpos, hgs⟩ := groupbyKeyExpr_ok hg
          refine ⟨i, hpos, ?_⟩
          rw [hget, hgs]
        · intro k entry hk
          obtain ⟨regk, m, regk1, hf, hget⟩ := hmpt k entry hk
          obtain ⟨halen, hcol, hother⟩ := translateAggregateWithRoot_args hf
          exact ⟨m, hget, halen, hcol, hother⟩
  · intro g hg
    simp only [distinctGroupingExprs, List.mem_map] at hg
    obtain ⟨idx, _, hgeq⟩ := hg
    exact ⟨idx, hgeq.symm⟩

/-- Witness for C5: the GroupBy of `keysC5`/`aggsC5` over schema `[a, b]`
translates successfully and the instantiated conclusion holds. -/
theorem c5_witness :
    translateGroupby relC5in keysC5 aggsC5 ["a", "b"] FunctionRegistry.new =
      Except.ok (c5pair.1, c5pair.2) ∧
    ((∃ gexprs measures,
      c5pair.1 = .Aggregate relC5in
        [{ groupingExpressions := gexprs, expressionReferences := [] }] measures [] ∧
      gexprs.length = keysC5.length ∧
      (∀ (k : Nat) (key : ColumnRef), keysC5.get? k = some key →
        ∃ i, position (fun name => name == key.column) ["a", "b"] = some i ∧
          gexprs.get? k = some (.Selection { field := i, rootType := .RootRef })) ∧
      measures.length = aggsC5.length ∧
      (∀ (k : Nat) (entry : String × AggCall), aggsC5.get? k = some entry →
        ∃ m, measures.get? k = some m ∧
          m.measure.arguments.length = entry.2.args.length ∧
          (∀ (j : Nat) (c : ColumnRef), entry.2.args.get? j = some (.Column c) →
            ∃ i, position (fun name => name == c.column) ["a", "b"] = some i ∧
              m.measure.arguments.get? j =
                some (.Selection { field := i, rootType := .RootRef })) ∧
          (∀ (j : Nat) (e : Expr), entry.2.args.get? j = some e →
            (∀ c, e ≠ Expr.Column c) →
            ∃ arg, m.measure.arguments.get? j = some arg ∧
              noSelectionsRooted arg = true))) ∧
    (translateDistinct relC5in ["a", "b"] = .Aggregate relC5in
        [{ groupingExpressions := distinctGroupingExprs ["a", "b"],
           expressionReferences := [] }] [] [] ∧
      ∀ g ∈ distinctGroupingExprs ["a", "b"],
        ∃ i, g = .Selection { field := i, rootType := .RootRef })) :=
  ⟨rfl, c5_rootref_direct_refs_only relC5in keysC5 aggsC5 ["a", "b"]
    FunctionRegistry.new rfl⟩

/-- `position` returns an index inside the list. -/
theorem position_lt {α : Type} {p : α → Bool} :
    ∀ {l : List α} {i : Nat}, position p l = some i → i < l.length
  | [], i, h => by cases h
  | a :: as, i, h => by
    simp only [position] at h
    by_cases hp : p a = true
    · rw [if_pos hp] at h
      cases h
      simp
    · rw [if_neg hp] at h
      cases hpos : position p as with
      | none => rw [hpos] at h; cases h
      | some j =>
        rw [hpos] at h
        have hj := position_lt hpos
        cases h
        simp only [List.length_cons]
        omega

/-- Membership in `pushUnique`. -/
theorem mem_pushUnique {acc : List Nat} {idx a : Nat} :
    a ∈ pushUnique acc idx ↔ a ∈ acc ∨ a = idx := by
  simp only [pushUnique]
  by_cases h : idx ∈ acc
  · rw [if_pos h]
    constructor
    · exact Or.inl
    · rintro (ha | rfl)
      · exact ha
      · exact h
  · rw [if_neg h]
    simp [List.mem_append]

/-- `pushUnique` preserves `Nodup`. -/
theorem nodup_pushUnique {acc : List Nat} {idx : Nat} (h : acc.Nodup) :
    (pushUnique acc idx).Nodup := by
  simp only [pushUnique]
  by_cases hm : idx ∈ acc
  · rw [if_pos hm]
    exact h
  · rw [if_neg hm]
    refine (List.nodup_append).mpr ⟨h, List.nodup_singleton idx, ?_⟩
    intro a ha hb
    simp only [List.mem_singleton] at hb
    subst hb
    exact hm ha

/-- Characterization of `collect_key_idx`: it preserves `Nodup` and its
output holds exactly the accumulator indices plus the resolved index of
every grouping key. -/
theorem collectKeyIdx_spec {fullSchema : List String} :
    ∀ {keys : List ColumnRef} {acc out : List Nat},
      collectKeyIdx fullSchema keys acc = .ok out →
      (acc.Nodup → out.Nodup) ∧
      (∀ i, i ∈ out ↔ (i ∈ acc ∨ ∃ key ∈ keys,
        position (fun name => name == key.column) fullSchema = some i)) := by
  intro keys
  induction keys with
  | nil =>
    intro acc out h
    simp only [collectKeyIdx] at h
    cases h
    exact ⟨fun hn => hn, fun i => by simp⟩
  | cons key keys ih =>
    intro acc out h
    simp only [collectKeyIdx] at h
    cases hpos : position (fun name => name == key.column) fullSchema with
    | none => simp only [hpos] at h; cases h
    | some idx =>
      simp only [hpos] at h
      obtain ⟨hnd, hmem⟩ := ih h
      refine ⟨fun hacc => hnd (nodup_pushUnique hacc), ?_⟩
      intro i
      rw [hmem i]
      constructor
      · rintro (hin | ⟨k, hk, hp⟩)
        · rcases mem_pushUnique.mp hin with h1 | rfl
          · exact Or.inl h1
          · exact Or.inr ⟨key, List.mem_cons_self key keys, hpos⟩
        · exact Or.inr ⟨k, List.mem_cons_of_mem key hk, hp⟩
      · rintro (hin | ⟨k, hk, hp⟩)
        · exact Or.inl (mem_pushUnique.mpr (Or.inl hin))
        · rcases List.mem_cons.mp hk with rfl | hk2
          · rw [hpos] at hp
            cases hp
            exact Or.inl (mem_pushUnique.mpr (Or.inr rfl))
          · exact Or.inr ⟨k, hk2, hp⟩

/-- `collect_arg_idx` is `collect_key_idx` on the bare-column arguments
(identical index resolution, identical error text). -/
theorem collectArgIdx_eq {fullSchema : List String} :
    ∀ (args : List Expr) (acc : List Nat),
      collectArgIdx fullSchema args acc =
        collectKeyIdx fullSchema (columnArgs args) acc
  | [], acc => rfl
  | .Column c :: rest, acc => by
    simp only [collectArgIdx, columnArgs, collectKeyIdx]
    cases hpos : position (fun name => name == c.column) fullSchema with
    | none => rfl
    | some idx => exact collectArgIdx_eq rest (pushUnique acc idx)
  | .Literal v :: rest, acc => collectArgIdx_eq rest acc
  | .BinaryOp op l r :: rest, acc => collectArgIdx_eq rest acc
  | .UnaryOp op e :: rest, acc => collectArgIdx_eq rest acc
  | .FuncCall f as0 :: rest, acc => collectArgIdx_eq rest acc
  | .FieldAccess e f :: rest, acc => collectArgIdx_eq rest acc
  | .Index e i :: rest, acc => collectArgIdx_eq rest acc
  | .Array es :: rest, acc => collectArgIdx_eq rest acc
  | .Object fs :: rest, acc => collectArgIdx_eq rest acc
  | .Vector vs :: rest, acc => collectArgIdx_eq rest acc
  | .InRange a b c d :: rest, acc => collectArgIdx_eq rest acc
  | .InSet a b :: rest, acc => collectArgIdx_eq rest acc

/-- Appending key lists sequences the collections (success case). -/
theorem collectKeyIdx_append_ok {fullSchema : List String} :
    ∀ {xs : List ColumnRef} (ys : List ColumnRef) {acc acc1 : List Nat},
      collectKeyIdx fullSchema xs acc = .ok acc1 →
      collectKeyIdx fullSchema (xs ++ ys) acc = collectKeyIdx fullSchema ys acc1
  | [], ys, acc, acc1, h => by
    simp only [collectKeyIdx] at h
    cases h
    rfl
  | x :: xs, ys, acc, acc1, h => by
    cases hpos : position (fun name => name == x.column) fullSchema with
    | none =>
      simp only [collectKeyIdx, hpos] at h
      cases h
    | some idx =>
      simp only [collectKeyIdx, hpos] at h
      simp only [List.cons_append, collectKeyIdx, hpos]
      exact collectKeyIdx_append_ok ys h

/-- Appending key lists propagates a failing collection. -/
theorem collectKeyIdx_append_err {fullSchema : List String} :
    ∀ {xs : List ColumnRef} (ys : List ColumnRef) {acc : List Nat} {e : TranslateError},
      collectKeyIdx fullSchema xs acc = .error e →
      collectKeyIdx fullSchema (xs ++ ys) acc = .error e
  | [], ys, acc, e, h => by simp only [collectKeyIdx] at h; cases h
  | x :: xs, ys, acc, e, h => by
    cases hpos : position (fun name => name == x.column) fullSchema with
    | none =>
      simp only [collectKeyIdx, hpos] at h
      cases h
      simp only [List.cons_append, collectKeyIdx, hpos]
    | some idx =>
      simp only [collectKeyIdx, hpos] at h
      simp only [List.cons_append, collectKeyIdx, hpos]
      exact collectKeyIdx_append_err ys h

/-- `collect_agg_idx` is `collect_key_idx` on all bare-column aggregate
arguments in iteration order. -/
theorem collectAggIdx_eq {fullSchema : List String} :
    ∀ (aggs : List (String × AggCall)) (acc : List Nat),
      collectAggIdx fullSchema aggs acc =
        collectKeyIdx fullSchema (aggsColumnArgs aggs) acc
  | [], acc => rfl
  | (s, aggCall) :: rest, acc => by
    simp only [collectAggIdx]
    rw [collectArgIdx_eq]
    have hsplit : aggsColumnArgs ((s, aggCall) :: rest) =
        columnArgs aggCall.args ++ aggsColumnArgs rest := rfl
    cases hc : collectKeyIdx fullSchema (columnArgs aggCall.args) acc with
    | error e =>
      rw [hsplit, collectKeyIdx_append_err (aggsColumnArgs rest) hc]
    | ok acc1 =>
      rw [hsplit, collectKeyIdx_append_ok (aggsColumnArgs rest) hc]
      exact collectAggIdx_eq rest acc1

/-- Membership in `columnArgs`. -/
theorem mem_columnArgs {c : ColumnRef} :
    ∀ {args : List Expr}, c ∈ columnArgs args ↔ Expr.Column c ∈ args := by
  intro args
  induction args with
  | nil => simp [columnArgs]
  | cons e rest ih =>
    cases e <;> simp [columnArgs, ih, List.mem_cons]

/-- Membership in `aggsColumnArgs`. -/
theorem mem_aggsColumnArgs {c : ColumnRef} :
    ∀ {aggs : List (String × AggCall)},
      c ∈ aggsColumnArgs aggs ↔ ∃ entry ∈ aggs, Expr.Column c ∈ entry.2.args := by
  intro aggs
  induction aggs with
  | nil => simp [aggsColumnArgs]
  | cons entry rest ih =>
    obtain ⟨s, aggCall⟩ := entry
    simp only [aggsColumnArgs, List.mem_append, mem_columnArgs, ih, List.mem_cons]
    constructor
    · rintro (h | ⟨e, he, ha⟩)
      · exact ⟨(s, aggCall), Or.inl rfl, h⟩
      · exact ⟨e, Or.inr he, ha⟩
    · rintro ⟨e, rfl | he, ha⟩
      · exact Or.inl ha
      · exact Or.inr ⟨e, he, ha⟩

/-- A present first `GroupBy` makes the `any` scan true. -/
theorem findFirstGroupBy_any :
    ∀ {ops : List Operator} {p : List ColumnRef × List (String × AggCall)},
      findFirstGroupBy ops = some p →
      ops.any (fun op => match op with | .GroupBy _ _ => true | _ => false) = true := by
  intro ops
  induction ops with
  | nil => intro p h; cases h
  | cons op rest ih =>
    intro p h
    cases op <;>
      first
        | (have h2 : findFirstGroupBy rest = some p := h
           simp [List.any_cons, ih h2])
        | simp [List.any_cons]

/-- The emitted source `Read` carries exactly the requested mask. -/
theorem translateSourceWithProjection_leaf {sp : SchemaProvider} {source : Source}
    {pf : Option (List Nat)} {rel : Rel}
    (h : translateSourceWithProjection sp source pf = .ok rel) :
    leafReadProjection rel = some pf := by
  cases source with
  | Table name al =>
    simp only [translateSourceWithProjection] at h
    cases hs : sp name with
    | error e => simp only [hs] at h; cases h
    | ok schema => simp only [hs] at h; cases h; rfl
  | Graph g al => cases h
  | SubPipeline pp al => cases h

/-- Every operator wraps its input, so the leaf `Read` mask is unchanged. -/
theorem translateOperator_leaf {sp : SchemaProvider} :
    ∀ {op : Operator} {input : Rel} {schema : List String} {reg : FunctionRegistry}
      {rel : Rel} {reg' : FunctionRegistry},
      translateOperator sp op input schema reg = .ok (rel, reg') →
      leafReadProjection rel = leafReadProjection input
  | .Filter c, input, schema, reg, rel, reg', h => by
    simp only [translateOperator, translateFilter] at h
    cases h1 : translateExpr schema c reg with
    | error e => simp only [h1] at h; cases h
    | ok p1 =>
      obtain ⟨e1, reg1⟩ := p1
      simp only [h1] at h
      cases h
      rfl
  | .Select projections, input, schema, reg, rel, reg', h => by
    simp only [translateOperator, translateSelect] at h
    cases h1 : mapMS (translateProjection schema) projections reg with
    | error e => simp only [h1] at h; cases h
    | ok p1 =>
      obtain ⟨es, reg1⟩ := p1
      simp only [h1] at h
      cases h
      rfl
  | .Sort keys, input, schema, reg, rel, reg', h => by
    simp only [translateOperator, translateSort] at h
    cases h1 : mapMS (fun (key : SortKey) reg1 =>
        match translateExpr schema key.expr reg1 with
        | .error e => .error e
        | .ok (e, reg2) =>
          .ok ((e, if key.desc then (4 : Int) else 1), reg2)) keys reg with
    | error e => simp only [h1] at h; cases h
    | ok p1 =>
      obtain ⟨sorts, reg1⟩ := p1
      simp only [h1] at h
      cases h
      rfl
  | .Take limit, input, schema, reg, rel, reg', h => by
    simp only [translateOperator] at h
    cases h
    rfl
  | .Distinct, input, schema, reg, rel, reg', h => by
    simp only [translateOperator] at h
    cases h
    rfl
  | .GroupBy keys aggs, input, schema, reg, rel, reg', h => by
    simp only [translateOperator, translateGroupby] at h
    cases h1 : mapME (groupbyKeyExpr schema) keys with
    | error e => simp only [h1] at h; cases h
    | ok gexprs =>
      simp only [h1] at h
      cases h2 : mapMS (fun (entry : String × AggCall) reg1 =>
          translateAggregateWithRoot entry.2 schema reg1) aggs reg with
      | error e => simp only [h2] at h; cases h
      | ok p2 =>
        obtain ⟨measures, reg1⟩ := p2
        simp only [h2] at h
        cases h
        rfl
  | .Join source onCond joinType, input, schema, reg, rel, reg', h => by
    simp only [translateOperator, translateJoin] at h
    cases h1 : translateSourceWithProjection sp source none with
    | error e => simp only [h1] at h; cases h
    | ok rightRel =>
      simp only [h1] at h
      cases h2 : getOutputNames sp source with
      | error e => simp only [h2] at h; cases h
      | ok rightSchema =>
        simp only [h2] at h
        cases h3 : translateExpr (schema ++ rightSchema) onCond reg with
        | error e => simp only [h3] at h; cases h
        | ok p3 =>
          obtain ⟨joinExpr, reg1⟩ := p3
          simp only [h3] at h
          cases h4 : joinTypeCodeOf joinType with
          | error e => simp only [h4] at h; cases h
          | ok code =>
            simp only [h4] at h
            cases h
            rfl
  | .Window _, _, _, _, _, _, h => by cases h
  | .Union _, _, _, _, _, _, h => by cases h
  | .Except, _, _, _, _, _, h => by cases h
  | .Intersect, _, _, _, _, _, h => by cases h
  | .Map _, _, _, _, _, _, h => by cases h
  | .Expand _ _, _, _, _, _, _, h => by cases h
  | .Resample _ _ _, _, _, _, _, _, h => by cases h
  | .Agg _ _, _, _, _, _, _, h => by cases h
  | .Knn _ _ _ _, _, _, _, _, _, h => by cases h
  | .Rank _, _, _, _, _, _, h => by cases h
  | .Neighbors _ _ _, _, _, _, _, _, h => by cases h
  | .TopK _ _, _, _, _, _, _, h => by cases h
  | .Sample _ _, _, _, _, _, _, h => by cases h
  | .Assert _ _, _, _, _, _, _, h => by cases h
  | .Explain _, _, _, _, _, _, h => by cases h

/-- The operator fold never changes the leaf `Read` mask. -/
theorem translateOpsFold_leaf {sp : SchemaProvider} :
    ∀ {ops : List Operator} {rel0 : Rel} {schema : List String}
      {reg : FunctionRegistry} {rel : Rel} {reg' : FunctionRegistry},
      translateOpsFold sp ops rel0 schema reg = .ok (rel, reg') →
      leafReadProjection rel = leafReadProjection rel0 := by
  intro ops
  induction ops with
  | nil =>
    intro rel0 schema reg rel reg' h
    simp only [translateOpsFold] at h
    cases h
    rfl
  | cons op rest ih =>
    intro rel0 schema reg rel reg' h
    simp only [translateOpsFold] at h
    cases h1 : translateOperator sp op rel0 schema reg with
    | error e => simp only [h1] at h; cases h
    | ok p1 =>
      obtain ⟨rel1, reg1⟩ := p1
      simp only [h1] at h
      rw [ih h, translateOperator_leaf h1]

/-- C4 (amended): when a pipeline contains a GroupBy, the emitted `Read`
carries a struct-mask projection whose items are exactly the indices of the
columns needed by the grouping keys and by the bare-column aggregate
arguments — without duplicates and all within the source schema — and the
current schema used for every operator is exactly the projected names in
mask order (not input-schema order). -/
theorem c4_groupby_projection_mask
    (sp : SchemaProvider) (pipe : Pipeline) (reg : FunctionRegistry)
    {keys : List ColumnRef} {aggs : List (String × AggCall)}
    {fullSchema : List String} {idxs : List Nat} {rel : Rel} {reg' : FunctionRegistry}
    (h1 : findFirstGroupBy pipe.ops = some (keys, aggs))
    (h2 : getOutputNames sp pipe.source = .ok fullSchema)
    (h3 : calculateGroupbyProjection sp pipe = .ok (some idxs))
    (h4 : translatePipeline sp pipe reg = .ok (rel, reg')) :
    leafReadProjection rel = some (some idxs) ∧
    idxs.Nodup ∧
    (∀ i ∈ idxs, i < fullSchema.length) ∧
    (∀ i, i ∈ idxs ↔
      ((∃ key ∈ keys, position (fun name => name == key.column) fullSchema = some i) ∨
       (∃ entry ∈ aggs, ∃ c : ColumnRef, Expr.Column c ∈ entry.2.args ∧
         position (fun name => name == c.column) fullSchema = some i))) ∧
    pipelineStartSchema sp pipe =
      .ok (idxs.map (fun idx => fullSchema.getD idx "")) := by
  have hany := findFirstGroupBy_any h1
  have hpf : pipelineProjectionFields sp pipe = .ok (some idxs) := by
    simp only [pipelineProjectionFields, hany, if_true]
    exact h3
  simp only [calculateGroupbyProjection, h1, h2] at h3
  cases hk : collectKeyIdx fullSchema keys [] with
  | error e => simp only [hk] at h3; cases h3
  | ok acc =>
    simp only [hk] at h3
    cases ha : collectAggIdx fullSchema aggs acc with
    | error e => simp only [ha] at h3; cases h3
    | ok needed =>
      simp only [ha] at h3
      cases h3
      have combined : collectKeyIdx fullSchema (keys ++ aggsColumnArgs aggs) [] =
          .ok idxs := by
        rw [collectKeyIdx_append_ok (aggsColumnArgs aggs) hk, ← collectAggIdx_eq]
        exact ha
      obtain ⟨hnd, hmem⟩ := collectKeyIdx_spec combined
      have hmem2 : ∀ i, i ∈ idxs ↔
          ((∃ key ∈ keys, position (fun name => name == key.column) fullSchema = some i) ∨
           (∃ entry ∈ aggs, ∃ c : ColumnRef, Expr.Column c ∈ entry.2.args ∧
             position (fun name => name == c.column) fullSchema = some i)) := by
        intro i
        rw [hmem i]
        constructor
        · rintro (hin | ⟨k, hk2, hp⟩)
          · cases hin
          · rcases List.mem_append.mp hk2 with hkk | hka
            · exact Or.inl ⟨k, hkk, hp⟩
            · obtain ⟨entry, hent, harg⟩ := mem_aggsColumnArgs.mp hka
              exact Or.inr ⟨entry, hent, k, harg, hp⟩
        · rintro (⟨k, hkk, hp⟩ | ⟨entry, hent, c, harg, hp⟩)
          · exact Or.inr ⟨k, List.mem_append.mpr (Or.inl hkk), hp⟩
          · exact Or.inr ⟨c, List.mem_append.mpr
              (Or.inr (mem_aggsColumnArgs.mpr ⟨entry, hent, harg⟩)), hp⟩
      refine ⟨?_, hnd List.nodup_nil, ?_, hmem2, ?_⟩
      · simp only [translatePipeline, hpf] at h4
        cases hsrc : translateSourceWithProjection sp pipe.source (some idxs) with
        | error e => simp only [hsrc] at h4; cases h4
        | ok rel0 =>
          simp only [hsrc] at h4
          cases hss : startSchemaFrom sp pipe (some idxs) with
          | error e => simp only [hss] at h4; cases h4
          | ok currentSchema =>
            simp only [hss] at h4
            rw [translateOpsFold_leaf h4, translateSourceWithProjection_leaf hsrc]
      · intro i hi
        rcases (hmem2 i).mp hi with ⟨k, _, hp⟩ | ⟨entry, _, c, _, hp⟩
        · exact position_lt hp
        · exact position_lt hp
      · simp only [pipelineStartSchema, hpf, startSchemaFrom, h2]

/-- Witness for C4: `progC4` groups `t(a, b, c)` by `c` with `sum(a)`; the
mask is `[2, 0]` (first-use order), within bounds and duplicate-free, its
members are exactly the needed indices, and the working schema is
`["c", "a"]`. -/
theorem c4_witness :
    findFirstGroupBy progC4.pipeline.ops =
      some ([{ table := none, column := "c" }],
        [("s", { func := "sum", args := [col "a"] })]) ∧
    getOutputNames spAbc progC4.pipeline.source = .ok ["a", "b", "c"] ∧
    calculateGroupbyProjection spAbc progC4.pipeline = .ok (some [2, 0]) ∧
    translatePipeline spAbc progC4.pipeline FunctionRegistry.new =
      .ok (c4pair.1, c4pair.2) ∧
    (leafReadProjection c4pair.1 = some (some [2, 0]) ∧
     ([2, 0] : List Nat).Nodup ∧
     (∀ i ∈ ([2, 0] : List Nat), i < (["a", "b", "c"] : List String).length) ∧
     (∀ i, i ∈ ([2, 0] : List Nat) ↔
       ((∃ key ∈ [({ table := none, column := "c" } : ColumnRef)],
           position (fun name => name == key.column) ["a", "b", "c"] = some i) ∨
        (∃ entry ∈ [("s", ({ func := "sum", args := [col "a"] } : AggCall))],
           ∃ c : ColumnRef, Expr.Column c ∈ entry.2.args ∧
             position (fun name => name == c.column) ["a", "b", "c"] = some i))) ∧
     pipelineStartSchema spAbc progC4.pipeline =
       .ok (([2, 0] : List Nat).map
         (fun idx => (["a", "b", "c"] : List String).getD idx ""))) :=
  ⟨rfl, rfl, rfl, rfl,
   c4_groupby_projection_mask spAbc progC4.pipeline FunctionRegistry.new
     rfl rfl rfl rfl⟩

/-- A permutation of a list with at most one element is the identity. -/
theorem perm_short_eq {α : Type} {l1 l2 : List α} (h : l1.Perm l2)
    (hl : l1.length ≤ 1) : l1 = l2 := by
  cases l1 with
  | nil => exact ((List.Perm.eq_nil h.symm)).symm
  | cons a rest =>
    cases rest with
    | nil => exact (List.perm_singleton.mp h.symm).symm
    | cons b r => simp only [List.length_cons] at hl; omega

/-- Operators equal up to aggs order with a small aggs map are equal. -/
theorem opEquiv_small_eq {op1 op2 : Operator} (h : opEquivUpToAggOrder op1 op2)
    (hs : ∀ keys aggs, op1 = Operator.GroupBy keys aggs → aggs.length ≤ 1) :
    op1 = op2 := by
  cases op1 <;> cases op2 <;> try exact h
  rename_i k1 a1 k2 a2
  obtain ⟨hk, hperm⟩ := h
  rw [hk, perm_short_eq hperm (hs k1 a1 rfl)]

/-- Operator lists equal up to aggs order, all aggs maps small, are equal. -/
theorem opsEquiv_small_eq {o1 o2 : List Operator}
    (h : List.Forall₂ opEquivUpToAggOrder o1 o2) (hs : aggsSmall o1) : o1 = o2 := by
  induction h with
  | nil => rfl
  | cons hab hrest ih =>
    rename_i a b as bs
    have h1 : a = b :=
      opEquiv_small_eq hab (fun keys aggs he => hs a (List.mem_cons_self a as) keys aggs he)
    have h2 : as = bs :=
      ih (fun op hm keys aggs he => hs op (List.mem_cons_of_mem a hm) keys aggs he)
    rw [h1, h2]

/-- C6 (amended): two structurally identical programs (equal up to the
iteration order of their `GroupBy` aggs maps) translate to the SAME plan —
and hence to identical serialized bytes — whenever every aggs map has at
most one entry.  (With two or more entries the counterexample shows the
plans can differ.) -/
theorem c6_small_aggs_plans_identical (sp : SchemaProvider) (p1 p2 : Program)
    (h : pipeEquivUpToAggOrder p1.pipeline p2.pipeline)
    (hs : aggsSmall p1.pipeline.ops) :
    translate sp p1 = translate sp p2 := by
  obtain ⟨hsrc, hops⟩ := h
  have hpipe : p1.pipeline = p2.pipeline := by
    have he := opsEquiv_small_eq hops hs
    cases hp1 : p1.pipeline with
    | mk s1 o1 =>
      cases hp2 : p2.pipeline with
      | mk s2 o2 =>
        rw [hp1, hp2] at hsrc he
        simp only [Pipeline.source] at hsrc
        simp only [Pipeline.ops] at he
        rw [hsrc, he]
  simp only [translate, hpipe]

/-- C6 witness: a single-aggregate group-by program compared with itself
(the only permutation of a one-entry map). -/
theorem c6_witness : translate spOrders progC6w = translate spOrders progC6w :=
  c6_small_aggs_plans_identical spOrders progC6w progC6w
    ⟨rfl, List.Forall₂.cons ⟨rfl, List.Perm.refl _⟩ List.Forall₂.nil⟩
    (by
      intro op hm keys aggs he
      rcases List.mem_cons.mp hm with rfl | hm2
      · cases he; exact Nat.le_refl 1
      · cases hm2)

/-- An unsupported operator makes one SQL-lowering step fail with a
`SubstraitError`. -/
theorem sqlStep_unsupported (st : SqlState) :
    ∀ {op : Operator}, unsupportedSqlOp op = true →
      ∃ msg, sqlStep st op = .error (.SubstraitError msg)
  | .Select _, h => by cases h
  | .Filter _, h => by cases h
  | .GroupBy _ _, h => by cases h
  | .Sort _, h => by cases h
  | .Take _, h => by cases h
  | .Distinct, h => by cases h
  | .Window _, _ => ⟨_, rfl⟩
  | .Union _, _ => ⟨_, rfl⟩
  | .Except, _ => ⟨_, rfl⟩
  | .Intersect, _ => ⟨_, rfl⟩
  | .Map _, _ => ⟨_, rfl⟩
  | .Expand _ _, _ => ⟨_, rfl⟩
  | .Resample _ _ _, _ => ⟨_, rfl⟩
  | .Agg _ _, _ => ⟨_, rfl⟩
  | .Knn _ _ _ _, _ => ⟨_, rfl⟩
  | .Rank _, _ => ⟨_, rfl⟩
  | .Neighbors _ _ _, _ => ⟨_, rfl⟩
  | .TopK _ _, _ => ⟨_, rfl⟩
  | .Sample _ _, _ => ⟨_, rfl⟩
  | .Assert _ _, _ => ⟨_, rfl⟩
  | .Explain _, _ => ⟨_, rfl⟩
  | .Join source onCond jt, h => by
    rcases jt with _ | jty
    · rcases source with ⟨n, _ | a⟩ | ⟨g, a⟩ | ⟨pp, a⟩ <;>
        first
        | exact ⟨_, rfl⟩
        | exact Bool.noConfusion h
    · cases jty <;>
        (rcases source with ⟨n, _ | a⟩ | ⟨g, a⟩ | ⟨pp, a⟩ <;>
          first
          | exact ⟨_, rfl⟩
          | exact Bool.noConfusion h)

/-- Every error a SQL-lowering step produces is a `SubstraitError`. -/
theorem sqlStep_error_substrait {st : SqlState} :
    ∀ {op : Operator} {e : ExecutionError}, sqlStep st op = .error e →
      ∃ m, e = ExecutionError.SubstraitError m
  | .Select _, _, h => by cases h
  | .Filter _, _, h => by cases h
  | .GroupBy _ _, _, h => by cases h
  | .Sort _, _, h => by cases h
  | .Take _, _, h => by cases h
  | .Distinct, _, h => by cases h
  | .Window _, _, h => by cases h; exact ⟨_, rfl⟩
  | .Union _, _, h => by cases h; exact ⟨_, rfl⟩
  | .Except, _, h => by cases h; exact ⟨_, rfl⟩
  | .Intersect, _, h => by cases h; exact ⟨_, rfl⟩
  | .Map _, _, h => by cases h; exact ⟨_, rfl⟩
  | .Expand _ _, _, h => by cases h; exact ⟨_, rfl⟩
  | .Resample _ _ _, _, h => by cases h; exact ⟨_, rfl⟩
  | .Agg _ _, _, h => by cases h; exact ⟨_, rfl⟩
  | .Knn _ _ _ _, _, h => by cases h; exact ⟨_, rfl⟩
  | .Rank _, _, h => by cases h; exact ⟨_, rfl⟩
  | .Neighbors _ _ _, _, h => by cases h; exact ⟨_, rfl⟩
  | .TopK _ _, _, h => by cases h; exact ⟨_, rfl⟩
  | .Sample _ _, _, h => by cases h; exact ⟨_, rfl⟩
  | .Assert _ _, _, h => by cases h; exact ⟨_, rfl⟩
  | .Explain _, _, h => by cases h; exact ⟨_, rfl⟩
  | .Join source onCond jt, _, h => by
    rcases jt with _ | jty
    · rcases source with ⟨n, _ | a⟩ | ⟨g, a⟩ | ⟨pp, a⟩ <;>
        first
        | (cases h; exact ⟨_, rfl⟩)
        | cases h
    · cases jty <;>
        (rcases source with ⟨n, _ | a⟩ | ⟨g, a⟩ | ⟨pp, a⟩ <;>
          first
          | (cases h; exact ⟨_, rfl⟩)
          | cases h)

/-- The SQL-lowering operator loop fails with a `SubstraitError` whenever
some operator is unsupported. -/
theorem sqlLoop_unsupported :
    ∀ {ops : List Operator} (st : SqlState),
      (∃ op ∈ ops, unsupportedSqlOp op = true) →
      ∃ msg, sqlLoop ops st = .error (.SubstraitError msg) := by
  intro ops
  induction ops with
  | nil =>
    rintro st ⟨op, hmem, _⟩
    cases hmem
  | cons op2 rest ih =>
    rintro st ⟨op, hmem, hop⟩
    rcases List.mem_cons.mp hmem with rfl | hmem2
    · obtain ⟨m, hm⟩ := sqlStep_unsupported st hop
      exact ⟨m, by simp only [sqlLoop, hm]⟩
    · cases hstep : sqlStep st op2 with
      | error e =>
        obtain ⟨m, hm⟩ := sqlStep_error_substrait hstep
        subst hm
        exact ⟨m, by simp only [sqlLoop, hstep]⟩
      | ok st1 =>
        obtain ⟨m, hm⟩ := ih st1 ⟨op, hmem2, hop⟩
        exact ⟨m, by simp only [sqlLoop, hstep, hm]⟩

/-- C8 (amended): every unsupported operator — Semi/Anti joins, non-table
join sources, and all reserved operators — makes `build_sql_query` return
an `ExecutionError::SubstraitError(String)`; unsupported EXPRESSION
variants do NOT error: `expr_to_sql` renders them as the SQL literal
`NULL`; and when the lowering does error, `execute_ir` returns that error
without handing any query to the engine (its result does not depend on the
engine at all). -/
theorem c8_unsupported_operators_error_expressions_render_null :
    (∀ (table : String) (ops : List Operator),
      (∃ op ∈ ops, unsupportedSqlOp op = true) →
      ∃ msg, buildSqlQuery table ops = .error (.SubstraitError msg))
    ∧ (∀ e : Expr, unsupportedSqlExpr e = true → exprToSql e = "NULL")
    ∧ (∀ (prog : Program) (err : ExecutionError), irToSql prog = .error err →
        ∀ runSql, executeIr runSql prog = .error err) := by
  refine ⟨?_, ?_, ?_⟩
  · intro table ops hex
    obtain ⟨m, hm⟩ := sqlLoop_unsupported
      { selectClause := "*", fromClause := table, whereClause := none,
        groupClause := none, orderClause := none, limitClause := none,
        distinct := false } hex
    exact ⟨m, by simp only [buildSqlQuery, hm]⟩
  · intro e he
    cases e <;> first | rfl | cases he
  · intro prog err h runSql
    simp only [executeIr, h]

/-- C8 witness: a reserved operator (`Window`) errors, a `UnaryOp`
expression renders as `NULL`, and the Semi-join program's error passes
through `execute_ir` untouched. -/
theorem c8_witness :
    (∃ msg, buildSqlQuery "t" [Operator.Window []] = .error (.SubstraitError msg))
    ∧ exprToSql (.UnaryOp .Neg (col "a")) = "NULL"
    ∧ executeIr probeRunSql progSemi = .error (.SubstraitError "SEMI JOIN not yet supported") := by
  obtain ⟨h1, h2, h3⟩ := c8_unsupported_operators_error_expressions_render_null
  exact ⟨h1 "t" [.Window []] ⟨.Window [], List.Mem.head _, rfl⟩,
         h2 _ rfl,
         h3 progSemi _ rfl probeRunSql⟩

/-- C9 counterexample: `jC9` has both `expr` and `alias` keys at the top
level, yet deserializes as `Projection::Expr` (the untagged union tries the
`Expr` alternative first, and the internally tagged `Expr` parse succeeds,
ignoring the unknown `alias` key), not as `Projection::Aliased` as the
claim states. -/
theorem c9_counterexample_expr_alias_doc_parses_as_expr :
    hasKey jC9 "expr" = true
    ∧ hasKey jC9 "alias" = true
    ∧ dProjection jC9 =
        some (.Expr (.UnaryOp .Neg (.Column { table := none, column := "a" }))) :=
  ⟨rfl, rfl, rfl⟩

end MLQL
